import Mathlib

/-!
# gtcp: framing and retry layer over a stream connection

A shallow embedding of `g/net/gtcp/tcp_func.go` (`Checksum`, `Receive`,
`Send`, `SendReceive`) and theorems about it.

The connection (`net.Conn`) is the environment.  It is modelled by the
outcomes its `Read` and `Write` calls are going to produce, in order, and a
trace of what the code did to it (reads, writes with their buffers, sleeps).
A call whose script of outcomes runs out is `blocked`: it waits in `Read` or
`Write`, and the connection it has reached is kept.
-/

namespace gtcp

/-! ## Data model -/

/-- Go `byte`. -/
abbrev Byte := Fin 256

/-- A non-nil Go `error` value: `io.EOF`, or any other error (told apart by a code).
The nil error is `Option.none`. -/
inductive Error where
  | EOF : Error
  | Other : Nat → Error
deriving DecidableEq, Repr

/-- Default retry interval, in milliseconds. -/
def gDEFAULT_RETRY_INTERVAL : Int := 100

/-- Default size of the read buffer. -/
def gDEFAULT_READ_BUFFER_SIZE : Nat := 1024

/-- The retry policy: `Count` retries left, `Interval` milliseconds between them. -/
structure Retry where
  Count : Int
  Interval : Int
deriving DecidableEq, Repr

/-- The package split mark `{0, 'E', 'O', 'P', 0}`. -/
def pkgSplitMark : List Byte := [0, 69, 79, 80, 0]

/-- Two's-complement wrap-around of a Go `int` / `int64`. -/
def wrapInt64 (x : Int) : Int := (x + 2 ^ 63) % 2 ^ 64 - 2 ^ 63

/-- The nanoseconds of `time.Millisecond`. -/
def Millisecond : Int := 1000000

/-- The argument of `time.Sleep` for an interval: `time.Duration(interval) * time.Millisecond`,
an `int64` count of nanoseconds. -/
def sleepDuration (interval : Int) : Int := wrapInt64 (interval * Millisecond)

/-- Outcome of one `conn.Read(buffer)`: the bytes `buffer[0 : length]` and the error.
By the contract of `Read`, `length` is at most the 1024 bytes of the buffer. -/
structure ReadResult where
  bytes : List Byte
  err : Option Error
deriving DecidableEq, Repr

/-- Outcome of one `conn.Write(data)`: the count `n` and the error. -/
structure WriteResult where
  n : Int
  err : Option Error
deriving DecidableEq, Repr

/-- What the code does to its environment. -/
inductive Event where
  | read : Event
  | write : List Byte → Int → Event
  | sleep : Int → Event
deriving DecidableEq, Repr

/-- A connection: the outcomes of its coming reads and writes, and the trace so far. -/
structure Conn where
  reads : List ReadResult
  writes : List WriteResult
  trace : List Event
deriving DecidableEq, Repr

/-- How a call ends: it returns, or it is left waiting in `conn.Read` / `conn.Write` once
the connection's scripted outcomes have run out, the connection being as given. -/
inductive Outcome (α : Type) where
  | returned : α → Outcome α
  | blocked : Conn → Outcome α
deriving DecidableEq, Repr

/-- What `Receive` returns, with the retry slice and the connection as it leaves them. -/
structure ReceiveResult where
  data : List Byte
  err : Option Error
  retry : List Retry
  conn : Conn
deriving DecidableEq, Repr

/-- What `Send` returns, with the retry slice and the connection as it leaves them. -/
structure SendResult where
  err : Option Error
  retry : List Retry
  conn : Conn
deriving DecidableEq, Repr

/-! ## Checksum -/

/-- Go `Checksum`: a `uint32` accumulator, to which each byte is added. -/
def Checksum (buffer : List Byte) : Nat :=
  buffer.foldl (fun checksum b => (checksum + b.val) % 2 ^ 32) 0

/-! ## Retry step -/

/-- The retry step shared by `Receive` and `Send`: `retry[0].Count--`, then the
default interval when `retry[0].Interval == 0`. -/
def Retry.consume (r : Retry) : Retry :=
  let r1 : Retry := { r with Count := wrapInt64 (r.Count - 1) }
  if r1.Interval = 0 then { r1 with Interval := gDEFAULT_RETRY_INTERVAL } else r1

/-! ## Receive -/

/-- The loop of `Receive`, one iteration per outcome of `conn.Read`. -/
def Receive.loop (writes : List WriteResult) :
    List ReadResult → List Retry → List Byte → List Event → Outcome ReceiveResult
  | [], _, _, trace => Outcome.blocked ⟨[], writes, trace⟩
  | r :: reads, retry, data, trace =>
    let trace := trace ++ [Event.read]
    let length := r.bytes.length
    if length < 1 ∧ r.err ≠ none then
      if r.err = some Error.EOF then
        Outcome.returned ⟨data, r.err, retry, ⟨reads, writes, trace⟩⟩
      else
        match retry with
        | p :: ps =>
          if p.Count = 0 then
            Outcome.returned ⟨data, r.err, retry, ⟨reads, writes, trace⟩⟩
          else
            let p := p.consume
            Receive.loop writes reads (p :: ps) data
              (trace ++ [Event.sleep (sleepDuration p.Interval)])
        | [] => Outcome.returned ⟨data, r.err, retry, ⟨reads, writes, trace⟩⟩
    else
      if length = pkgSplitMark.length ∧ pkgSplitMark = r.bytes then
        Outcome.returned ⟨data, r.err, retry, ⟨reads, writes, trace⟩⟩
      else
        let data := data ++ r.bytes
        if length < gDEFAULT_READ_BUFFER_SIZE ∨ r.err = some Error.EOF then
          Outcome.returned ⟨data, r.err, retry, ⟨reads, writes, trace⟩⟩
        else
          Receive.loop writes reads retry data trace

/-- Go `Receive(conn, retry...)`. -/
def Receive (conn : Conn) (retry : List Retry) : Outcome ReceiveResult :=
  Receive.loop conn.writes conn.reads retry [] conn.trace

/-! ## Send -/

/-- The loop of `Send`, one iteration per outcome of `conn.Write`.  The running total
`length` and `len(data)` are Go `int`s, hence the wrap-around. -/
def Send.loop (reads : List ReadResult) (data : List Byte) :
    List WriteResult → List Retry → Int → List Event → Outcome SendResult
  | [], _, _, trace => Outcome.blocked ⟨reads, [], trace⟩
  | w :: writes, retry, length, trace =>
    let trace := trace ++ [Event.write data w.n]
    if w.err ≠ none then
      if w.err = some Error.EOF then
        Outcome.returned ⟨w.err, retry, ⟨reads, writes, trace⟩⟩
      else
        match retry with
        | [] => Outcome.returned ⟨w.err, retry, ⟨reads, writes, trace⟩⟩
        | p :: ps =>
          if p.Count = 0 then
            Outcome.returned ⟨w.err, retry, ⟨reads, writes, trace⟩⟩
          else
            let p := p.consume
            Send.loop reads data writes (p :: ps) length
              (trace ++ [Event.sleep (sleepDuration p.Interval)])
    else
      let length := wrapInt64 (length + w.n)
      if length = wrapInt64 data.length then
        Outcome.returned ⟨none, retry, ⟨reads, writes, trace⟩⟩
      else
        Send.loop reads data writes retry length trace

/-- The bytes `Send` transmits for a payload: the split mark is appended when
`len(data) % gDEFAULT_READ_BUFFER_SIZE == 0`. -/
def Send.frame (data : List Byte) : List Byte :=
  if data.length % gDEFAULT_READ_BUFFER_SIZE = 0 then data ++ pkgSplitMark else data

/-- Go `Send(conn, data, retry...)`. -/
def Send (conn : Conn) (data : List Byte) (retry : List Retry) : Outcome SendResult :=
  Send.loop conn.reads (Send.frame data) conn.writes retry 0 conn.trace

/-! ## SendReceive -/

/-- Go `SendReceive(conn, data, retry...)`: `Receive(conn)` after a `Send` that returned nil. -/
def SendReceive (conn : Conn) (data : List Byte) (retry : List Retry) :
    Outcome ReceiveResult :=
  match Send conn data retry with
  | Outcome.blocked c => Outcome.blocked c
  | Outcome.returned s =>
    if s.err = none then
      match Receive s.conn [] with
      | Outcome.blocked c => Outcome.blocked c
      | Outcome.returned r => Outcome.returned ⟨r.data, r.err, s.retry, r.conn⟩
    else
      Outcome.returned ⟨[], s.err, s.retry, s.conn⟩

/-- The connection a `Send` call has reached, returned or not. -/
def Send.reached : Outcome SendResult → Conn
  | Outcome.returned s => s.conn
  | Outcome.blocked c => c

/-- The connection a `Receive` call has reached, returned or not. -/
def Receive.reached : Outcome ReceiveResult → Conn
  | Outcome.returned r => r.conn
  | Outcome.blocked c => c

/-! ## Loopback -/

/-- The bytes a connection accepted in one event: the first `n` of a write's buffer. -/
def Event.accepted : Event → List Byte
  | Event.write data n => data.take n.toNat
  | _ => []

/-- The byte stream a connection accepted, over its whole trace. -/
def accepted (trace : List Event) : List Byte :=
  trace.foldr (fun e stream => e.accepted ++ stream) []

/-- The reads served from a byte stream: each returns the next
`min(gDEFAULT_READ_BUFFER_SIZE, remaining)` bytes and no error. -/
def loopbackReads : Nat → List Byte → List ReadResult
  | 0, _ => []
  | fuel + 1, stream =>
    if stream = [] then []
    else
      ⟨stream.take gDEFAULT_READ_BUFFER_SIZE, none⟩ ::
        loopbackReads fuel (stream.drop gDEFAULT_READ_BUFFER_SIZE)

/-- The receiving end of a loopback pair: it is served the stream the sending
end accepted. -/
def loopbackPeer (sender : Conn) : Conn :=
  ⟨loopbackReads (accepted sender.trace).length (accepted sender.trace), [], []⟩

/-! ## Traces of retried calls -/

/-- The trace of failed attempts, each followed by the retry sleep. -/
def retried (d : Int) : List Event → List Event
  | [] => []
  | e :: es => e :: Event.sleep d :: retried d es

/-- The durations of the sleeps of a trace, in order. -/
def sleeps : List Event → List Int
  | [] => []
  | Event.sleep d :: es => d :: sleeps es
  | Event.read :: es => sleeps es
  | Event.write _ _ :: es => sleeps es

/-- A read that failed with no byte and a non-EOF error. -/
def failedRead (code : Nat) : ReadResult := ⟨[], some (Error.Other code)⟩

/-- A write that failed with a non-EOF error, having reported `n` bytes. -/
def failedWrite (f : Int × Nat) : WriteResult := ⟨f.1, some (Error.Other f.2)⟩

/-! ## Loopback: lemmas -/

theorem loopbackReads_nil (fuel : Nat) : loopbackReads fuel [] = [] := by
  cases fuel <;> simp [loopbackReads]

theorem loopbackReads_cons (fuel : Nat) (stream : List Byte) (h : stream ≠ []) :
    loopbackReads (fuel + 1) stream
      = ⟨stream.take gDEFAULT_READ_BUFFER_SIZE, none⟩ ::
          loopbackReads fuel (stream.drop gDEFAULT_READ_BUFFER_SIZE) := by
  simp [loopbackReads, h]

/-- The reads of a loopback stream serve the whole stream, in order. -/
theorem loopbackReads_flatten :
    ∀ (fuel : Nat) (stream : List Byte), stream.length ≤ fuel →
      ((loopbackReads fuel stream).map ReadResult.bytes).flatten = stream := by
  intro fuel
  induction fuel with
  | zero =>
    intro stream h
    have : stream = [] := List.length_eq_zero.mp (by omega)
    simp [this, loopbackReads]
  | succ fuel ih =>
    intro stream h
    by_cases hne : stream = []
    · simp [hne, loopbackReads]
    · have hpos : 0 < stream.length := List.length_pos.mpr hne
      rw [loopbackReads_cons fuel stream hne, List.map_cons, List.flatten_cons,
        ih _ (by simp only [List.length_drop, gDEFAULT_READ_BUFFER_SIZE]; omega)]
      exact List.take_append_drop _ _

/-- An interval of milliseconds that fits `int64` nanoseconds is slept as it is. -/
theorem sleepDuration_ms (i : Int) (h0 : 0 ≤ i) (h1 : i ≤ 9223372036854) :
    sleepDuration i = i * 1000000 := by
  unfold sleepDuration wrapInt64 Millisecond
  omega

/-- A full chunk, read with no error, is appended and the loop goes on. -/
theorem Receive_loop_full (writes : List WriteResult) (chunk : List Byte)
    (reads : List ReadResult) (retry : List Retry) (data : List Byte) (trace : List Event)
    (h : chunk.length = gDEFAULT_READ_BUFFER_SIZE) :
    Receive.loop writes (⟨chunk, none⟩ :: reads) retry data trace
      = Receive.loop writes reads retry (data ++ chunk) (trace ++ [Event.read]) := by
  simp [Receive.loop, h, gDEFAULT_READ_BUFFER_SIZE, pkgSplitMark]

/-- A short chunk other than the split mark, read with no error, is appended and ends
the loop. -/
theorem Receive_loop_short (writes : List WriteResult) (chunk : List Byte)
    (reads : List ReadResult) (retry : List Retry) (data : List Byte) (trace : List Event)
    (h : chunk.length < gDEFAULT_READ_BUFFER_SIZE) (hm : chunk ≠ pkgSplitMark) :
    Receive.loop writes (⟨chunk, none⟩ :: reads) retry data trace
      = Outcome.returned ⟨data ++ chunk, none, retry, ⟨reads, writes, trace ++ [Event.read]⟩⟩ := by
  have hm2 : ¬ pkgSplitMark = chunk := fun e => hm e.symm
  simp [Receive.loop, h, hm2]

/-- The split mark, read with no error, ends the loop and is dropped. -/
theorem Receive_loop_mark (writes : List WriteResult)
    (reads : List ReadResult) (retry : List Retry) (data : List Byte) (trace : List Event) :
    Receive.loop writes (⟨pkgSplitMark, none⟩ :: reads) retry data trace
      = Outcome.returned ⟨data, none, retry, ⟨reads, writes, trace ++ [Event.read]⟩⟩ := by
  simp [Receive.loop]

/-- Receive over a loopback stream that does not end on a chunk boundary and does not
end with the split mark as its last, 5-byte chunk: the stream is returned. -/
theorem Receive_loop_loopback (writes : List WriteResult) (retry : List Retry) :
    ∀ (fuel : Nat) (stream data : List Byte) (trace : List Event),
      stream.length ≤ fuel → stream.length % 1024 ≠ 0 →
      ¬ (stream.length % 1024 = 5 ∧ pkgSplitMark <:+ stream) →
      Receive.loop writes (loopbackReads fuel stream) retry data trace
        = Outcome.returned ⟨data ++ stream, none, retry,
            ⟨[], writes, trace ++ List.replicate (stream.length / 1024 + 1) Event.read⟩⟩ := by
  intro fuel
  induction fuel with
  | zero =>
    intro stream data trace hf hmod
    have : stream.length = 0 := by omega
    omega
  | succ fuel ih =>
    intro stream data trace hf hmod hmark
    have hne : stream ≠ [] := by
      intro h; subst h; simp at hmod
    rw [loopbackReads_cons fuel stream hne]
    by_cases hshort : stream.length < 1024
    · have htake : stream.take gDEFAULT_READ_BUFFER_SIZE = stream :=
        List.take_of_length_le (by simp only [gDEFAULT_READ_BUFFER_SIZE]; omega)
      have hdrop : stream.drop gDEFAULT_READ_BUFFER_SIZE = [] :=
        List.drop_of_length_le (by simp only [gDEFAULT_READ_BUFFER_SIZE]; omega)
      have hm : stream ≠ pkgSplitMark := by
        intro h
        apply hmark
        rw [h]
        exact ⟨by decide, List.suffix_refl _⟩
      rw [htake, hdrop, loopbackReads_nil,
        Receive_loop_short writes stream [] retry data trace
          (by simp only [gDEFAULT_READ_BUFFER_SIZE]; omega) hm]
      have hdiv : stream.length / 1024 = 0 := by omega
      simp [hdiv]
    · have hlen : (stream.take gDEFAULT_READ_BUFFER_SIZE).length = gDEFAULT_READ_BUFFER_SIZE := by
        simp only [gDEFAULT_READ_BUFFER_SIZE, List.length_take]; omega
      have hdl : (stream.drop gDEFAULT_READ_BUFFER_SIZE).length = stream.length - 1024 := by
        simp [gDEFAULT_READ_BUFFER_SIZE]
      rw [Receive_loop_full writes _ _ retry data trace hlen,
        ih (stream.drop gDEFAULT_READ_BUFFER_SIZE) _ _ (by omega) (by omega)
          (by
            rintro ⟨h5, hs⟩
            exact hmark ⟨by omega, hs.trans (List.drop_suffix _ _)⟩)]
      have hdiv : stream.length / 1024 + 1 = ((stream.length - 1024) / 1024 + 1) + 1 := by omega
      rw [hdl, hdiv, List.replicate_succ (n := (stream.length - 1024) / 1024 + 1)]
      simp [List.append_assoc]

/-- Receive over a loopback stream made of whole chunks followed by the split mark: the
chunks are returned, the mark is dropped. -/
theorem Receive_loop_loopback_mark (writes : List WriteResult) (retry : List Retry) :
    ∀ (fuel : Nat) (body data : List Byte) (trace : List Event),
      body.length + 5 ≤ fuel → body.length % 1024 = 0 →
      Receive.loop writes (loopbackReads fuel (body ++ pkgSplitMark)) retry data trace
        = Outcome.returned ⟨data ++ body, none, retry,
            ⟨[], writes, trace ++ List.replicate (body.length / 1024 + 1) Event.read⟩⟩ := by
  intro fuel
  induction fuel with
  | zero => intro body data trace hf; omega
  | succ fuel ih =>
    intro body data trace hf hmod
    have hne : body ++ pkgSplitMark ≠ [] := by simp [pkgSplitMark]
    rw [loopbackReads_cons fuel _ hne]
    by_cases hb : body = []
    · subst hb
      have htake : (([] : List Byte) ++ pkgSplitMark).take gDEFAULT_READ_BUFFER_SIZE
          = pkgSplitMark := by decide
      have hdrop : (([] : List Byte) ++ pkgSplitMark).drop gDEFAULT_READ_BUFFER_SIZE = [] := by
        decide
      rw [htake, hdrop, loopbackReads_nil, Receive_loop_mark]
      simp
    · have hpos : 0 < body.length := List.length_pos.mpr hb
      have hge : 1024 ≤ body.length := by omega
      have htake : (body ++ pkgSplitMark).take gDEFAULT_READ_BUFFER_SIZE
          = body.take gDEFAULT_READ_BUFFER_SIZE :=
        List.take_append_of_le_length (by simp only [gDEFAULT_READ_BUFFER_SIZE]; omega)
      have hdrop : (body ++ pkgSplitMark).drop gDEFAULT_READ_BUFFER_SIZE
          = body.drop gDEFAULT_READ_BUFFER_SIZE ++ pkgSplitMark :=
        List.drop_append_of_le_length (by simp only [gDEFAULT_READ_BUFFER_SIZE]; omega)
      have hlen : (body.take gDEFAULT_READ_BUFFER_SIZE).length = gDEFAULT_READ_BUFFER_SIZE := by
        simp only [gDEFAULT_READ_BUFFER_SIZE, List.length_take]; omega
      have hdl : (body.drop gDEFAULT_READ_BUFFER_SIZE).length = body.length - 1024 := by
        simp [gDEFAULT_READ_BUFFER_SIZE]
      rw [htake, hdrop, Receive_loop_full writes _ _ retry data trace hlen,
        ih (body.drop gDEFAULT_READ_BUFFER_SIZE) _ _ (by omega) (by omega)]
      have hdiv : body.length / 1024 + 1 = ((body.length - 1024) / 1024 + 1) + 1 := by omega
      rw [hdl, hdiv, List.replicate_succ (n := (body.length - 1024) / 1024 + 1)]
      simp [List.append_assoc]

/-- A write that accepts the whole buffer with no error ends `Send` with nil. -/
theorem Send_loop_full (reads : List ReadResult) (data : List Byte)
    (writes : List WriteResult) (retry : List Retry) (trace : List Event) :
    Send.loop reads data (⟨data.length, none⟩ :: writes) retry 0 trace
      = Outcome.returned ⟨none, retry,
          ⟨reads, writes, trace ++ [Event.write data data.length]⟩⟩ := by
  simp [Send.loop]


/-! ## Round trip over a loopback pair -/

/-- C1, as amended: a payload whose length is not a multiple of 1024, and which does not
end with the split mark as the last 5 bytes of a length that is 5 modulo 1024, comes back
unchanged: `Send`, its write accepted in full, returns nil, and `Receive` at the other end
of the loopback pair returns the payload with a nil error. -/
theorem roundtrip_unaligned (payload : List Byte) (reads : List ReadResult)
    (writes : List WriteResult) (retry retry2 : List Retry)
    (hlen : payload.length % 1024 ≠ 0)
    (hmark : ¬ (payload.length % 1024 = 5 ∧ pkgSplitMark <:+ payload)) :
    ∃ s : SendResult,
      Send ⟨reads, ⟨payload.length, none⟩ :: writes, []⟩ payload retry = Outcome.returned s
      ∧ s.err = none
      ∧ accepted s.conn.trace = payload
      ∧ Receive (loopbackPeer s.conn) retry2
          = Outcome.returned ⟨payload, none, retry2,
              ⟨[], [], List.replicate (payload.length / 1024 + 1) Event.read⟩⟩ := by
  have hframe : Send.frame payload = payload := by
    simp [Send.frame, gDEFAULT_READ_BUFFER_SIZE, hlen]
  have hacc : accepted [Event.write payload (payload.length : Int)] = payload := by
    simp [accepted, Event.accepted]
  refine ⟨⟨none, retry, ⟨reads, writes, [Event.write payload payload.length]⟩⟩, ?_, rfl, hacc, ?_⟩
  · simp only [Send, hframe]
    exact Send_loop_full reads payload writes retry []
  · simp only [Receive, loopbackPeer, hacc]
    simpa using Receive_loop_loopback [] retry2 payload.length payload [] []
      (Nat.le_refl _) hlen hmark

theorem roundtrip_unaligned_witness :
    ∃ s : SendResult,
      Send ⟨[], [⟨3, none⟩], []⟩ [10, 20, 30] [⟨2, 10⟩] = Outcome.returned s
      ∧ s.err = none
      ∧ accepted s.conn.trace = [10, 20, 30]
      ∧ Receive (loopbackPeer s.conn) []
          = Outcome.returned ⟨[10, 20, 30], none, [], ⟨[], [], [Event.read]⟩⟩ :=
  roundtrip_unaligned [10, 20, 30] [] [] [⟨2, 10⟩] [] (by decide)
    (by rintro ⟨h, -⟩; revert h; decide)

/-- C1 fails as stated: the split mark itself is a payload of 5 bytes, not a multiple of
1024; `Send` transmits it as it is, its write is accepted in full, and `Receive` at the
other end returns the empty payload. -/
theorem roundtrip_unaligned_counterexample :
    pkgSplitMark.length % 1024 ≠ 0
      ∧ Send ⟨[], [⟨5, none⟩], []⟩ pkgSplitMark []
          = Outcome.returned ⟨none, [], ⟨[], [], [Event.write pkgSplitMark 5]⟩⟩
      ∧ Receive (loopbackPeer ⟨[], [], [Event.write pkgSplitMark 5]⟩) []
          = Outcome.returned ⟨[], none, [], ⟨[], [], [Event.read]⟩⟩
      ∧ ([] : List Byte) ≠ pkgSplitMark := by
  decide

/-- C2: a payload whose length is a multiple of 1024 (the empty one and one of exactly
1024 bytes included) is transmitted followed by the 5 bytes of the split mark, and
`Receive` at the other end of the loopback pair returns the payload, the mark stripped,
with a nil error. -/
theorem roundtrip_aligned (payload : List Byte) (reads : List ReadResult)
    (writes : List WriteResult) (retry retry2 : List Retry)
    (hlen : payload.length % 1024 = 0) :
    ∃ s : SendResult,
      Send ⟨reads, ⟨payload.length + 5, none⟩ :: writes, []⟩ payload retry
          = Outcome.returned s
      ∧ s.err = none
      ∧ accepted s.conn.trace = payload ++ [0, 69, 79, 80, 0]
      ∧ Receive (loopbackPeer s.conn) retry2
          = Outcome.returned ⟨payload, none, retry2,
              ⟨[], [], List.replicate (payload.length / 1024 + 1) Event.read⟩⟩ := by
  have hframe : Send.frame payload = payload ++ pkgSplitMark := by
    simp [Send.frame, gDEFAULT_READ_BUFFER_SIZE, hlen]
  have hl : ((payload ++ pkgSplitMark).length : Int) = (payload.length : Int) + 5 := by
    simp [pkgSplitMark]
  have hacc : accepted [Event.write (payload ++ pkgSplitMark) ((payload.length : Int) + 5)]
      = payload ++ pkgSplitMark := by
    have h5 : ((payload.length : Int) + 5).toNat = payload.length + 5 := by omega
    simp only [accepted, Event.accepted, List.foldr_cons, List.foldr_nil, List.append_nil, h5]
    exact List.take_of_length_le (by simp [pkgSplitMark])
  refine ⟨⟨none, retry, ⟨reads, writes,
    [Event.write (payload ++ pkgSplitMark) ((payload.length : Int) + 5)]⟩⟩, ?_, rfl, hacc, ?_⟩
  · simp only [Send, hframe]
    have := Send_loop_full reads (payload ++ pkgSplitMark) writes retry []
    rw [hl] at this
    simpa using this
  · simp only [Receive, loopbackPeer, hacc]
    simpa using Receive_loop_loopback_mark [] retry2 (payload ++ pkgSplitMark).length payload
      [] [] (by simp [pkgSplitMark]) hlen

theorem roundtrip_aligned_witness :
    ∃ s : SendResult,
      Send ⟨[], [⟨((List.replicate 1024 (7 : Byte)).length : Int) + 5, none⟩], []⟩
          (List.replicate 1024 7) [] = Outcome.returned s
      ∧ s.err = none
      ∧ accepted s.conn.trace = List.replicate 1024 7 ++ [0, 69, 79, 80, 0]
      ∧ Receive (loopbackPeer s.conn) []
          = Outcome.returned ⟨List.replicate 1024 7, none, [],
              ⟨[], [], List.replicate ((List.replicate 1024 (7 : Byte)).length / 1024 + 1)
                Event.read⟩⟩ :=
  roundtrip_aligned (List.replicate 1024 7) [] [] [] [] (by rw [List.length_replicate])

/-! ## Send framing -/

/-- Every write of `Send`'s loop is given the loop's buffer, and the first event it adds
to the trace is the write the first scripted outcome answers. -/
theorem Send_loop_trace (reads : List ReadResult) (data : List Byte) :
    ∀ (writes : List WriteResult) (retry : List Retry) (length : Int) (trace : List Event),
      ∃ added : List Event,
        (Send.reached (Send.loop reads data writes retry length trace)).trace = trace ++ added
        ∧ (∀ buf n, Event.write buf n ∈ added → buf = data)
        ∧ added.head? = writes.head?.map (fun w => Event.write data w.n) := by
  intro writes
  induction writes with
  | nil =>
    intro retry length trace
    exact ⟨[], by simp [Send.loop, Send.reached], by simp, by simp⟩
  | cons w writes ih =>
    intro retry length trace
    have stop : ∀ (e : Option Error) (r : List Retry),
        ∃ added : List Event,
          (Send.reached (Outcome.returned
            ⟨e, r, ⟨reads, writes, trace ++ [Event.write data w.n]⟩⟩)).trace = trace ++ added
          ∧ (∀ buf n, Event.write buf n ∈ added → buf = data)
          ∧ added.head? = (w :: writes).head?.map (fun w => Event.write data w.n) := by
      intro e r
      refine ⟨[Event.write data w.n], by simp [Send.reached], ?_, by simp⟩
      intro buf n h
      simp only [List.mem_singleton, Event.write.injEq] at h
      exact h.1
    unfold Send.loop
    simp only []
    split_ifs with h1 h2 h3
    · exact stop _ _
    · cases retry with
      | nil => exact stop _ _
      | cons p ps =>
        simp only []
        split_ifs with h4
        · exact stop _ _
        · obtain ⟨added, ht, hb, -⟩ := ih (p.consume :: ps) length
            (trace ++ [Event.write data w.n] ++
              [Event.sleep (sleepDuration p.consume.Interval)])
          refine ⟨Event.write data w.n :: Event.sleep (sleepDuration p.consume.Interval)
            :: added, ?_, ?_, by simp⟩
          · rw [ht]; simp
          · intro buf n h
            simp only [List.mem_cons, Event.write.injEq] at h
            rcases h with h | h | h
            · exact h.1
            · exact absurd h (by simp)
            · exact hb buf n h
    · exact stop _ _
    · obtain ⟨added, ht, hb, -⟩ := ih retry (wrapInt64 (length + w.n))
        (trace ++ [Event.write data w.n])
      refine ⟨Event.write data w.n :: added, ?_, ?_, by simp⟩
      · rw [ht]; simp
      · intro buf n h
        simp only [List.mem_cons, Event.write.injEq] at h
        rcases h with h | h
        · exact h.1
        · exact hb buf n h

/-- C3: the byte sequence `Send` passes to the connection's write, at every write it
issues, is the payload followed by `{0x00, 'E', 'O', 'P', 0x00}` when the payload's
length is a multiple of 1024, and the payload with nothing appended otherwise; a write is
issued as soon as the connection answers one. -/
theorem Send_framing (conn : Conn) (payload : List Byte) (retry : List Retry) :
    ∃ added : List Event,
      (Send.reached (Send conn payload retry)).trace = conn.trace ++ added
      ∧ (∀ buf n, Event.write buf n ∈ added →
          buf = if payload.length % 1024 = 0 then payload ++ [0, 69, 79, 80, 0] else payload)
      ∧ added.head? = conn.writes.head?.map (fun w =>
          Event.write
            (if payload.length % 1024 = 0 then payload ++ [0, 69, 79, 80, 0] else payload)
            w.n) := by
  have hframe : Send.frame payload
      = if payload.length % 1024 = 0 then payload ++ [0, 69, 79, 80, 0] else payload := rfl
  rw [← hframe]
  exact Send_loop_trace conn.reads (Send.frame payload) conn.writes retry 0 conn.trace

theorem Send_framing_witness :
    ∃ added : List Event,
      (Send.reached (Send ⟨[], [⟨0, some (Error.Other 1)⟩, ⟨5, none⟩], []⟩ [] [⟨1, 10⟩])).trace
        = [] ++ added
      ∧ (∀ buf n, Event.write buf n ∈ added →
          buf = if ([] : List Byte).length % 1024 = 0 then [] ++ [0, 69, 79, 80, 0] else [])
      ∧ added.head? = (([⟨0, some (Error.Other 1)⟩, ⟨5, none⟩] : List WriteResult).head?.map
          (fun w => Event.write
            (if ([] : List Byte).length % 1024 = 0 then [] ++ [0, 69, 79, 80, 0] else []) w.n)) :=
  Send_framing ⟨[], [⟨0, some (Error.Other 1)⟩, ⟨5, none⟩], []⟩ [] [⟨1, 10⟩]

/-! ## End of stream in Receive -/

/-- C4, as amended: a read of 0 bytes with end-of-stream ends `Receive`'s loop, which
returns the data accumulated so far together with the end-of-stream error of that read;
on a connection closed before any byte was sent, `Receive` returns the empty payload and
`io.EOF`. -/
theorem Receive_eof (conn : Conn) (reads : List ReadResult) (retry : List Retry)
    (data : List Byte) :
    Receive.loop conn.writes (⟨[], some Error.EOF⟩ :: reads) retry data conn.trace
        = Outcome.returned ⟨data, some Error.EOF, retry,
            ⟨reads, conn.writes, conn.trace ++ [Event.read]⟩⟩
      ∧ Receive ⟨⟨[], some Error.EOF⟩ :: reads, conn.writes, conn.trace⟩ retry
        = Outcome.returned ⟨[], some Error.EOF, retry,
            ⟨reads, conn.writes, conn.trace ++ [Event.read]⟩⟩ := by
  constructor <;> simp [Receive, Receive.loop]

/-- C4 fails as stated: on a connection whose first read yields 0 bytes and end-of-stream,
`Receive` returns the empty payload with the error `io.EOF`, not a nil error. -/
theorem Receive_eof_counterexample :
    Receive ⟨[⟨[], some Error.EOF⟩], [], []⟩ []
        = Outcome.returned ⟨[], some Error.EOF, [], ⟨[], [], [Event.read]⟩⟩
      ∧ (some Error.EOF : Option Error) ≠ none := by
  decide

/-! ## Checksum: theorems -/

theorem Checksum_foldl (buffer : List Byte) (a : Nat) (ha : a < 2 ^ 32) :
    buffer.foldl (fun checksum b => (checksum + b.val) % 2 ^ 32) a
      = (a + (buffer.map Fin.val).sum) % 2 ^ 32 := by
  induction buffer generalizing a with
  | nil => simpa using (Nat.mod_eq_of_lt ha).symm
  | cons b bs ih =>
    simp only [List.foldl_cons, List.map_cons, List.sum_cons]
    rw [ih _ (Nat.mod_lt _ (by norm_num))]
    omega

theorem Checksum_eq_sum (buffer : List Byte) :
    Checksum buffer = (buffer.map Fin.val).sum % 2 ^ 32 := by
  unfold Checksum
  rw [Checksum_foldl buffer 0 (by norm_num), Nat.zero_add]

/-- C5: `Checksum` of a buffer is the sum of its byte values modulo 2^32; it is 0 on the
empty buffer and 6 on `[1, 2, 3]`. -/
theorem Checksum_sum_mod (buffer : List Byte) :
    Checksum buffer = (buffer.map Fin.val).sum % 2 ^ 32
      ∧ Checksum [] = 0 ∧ Checksum [1, 2, 3] = 6 :=
  ⟨Checksum_eq_sum buffer, by decide, by decide⟩

/-- C6: `Checksum` does not depend on the order of the bytes: it agrees on two buffers
that are permutations of each other, and on a buffer and its reverse. -/
theorem Checksum_perm (a b : List Byte) (h : a.Perm b) :
    Checksum a = Checksum b ∧ Checksum a.reverse = Checksum a := by
  constructor
  · rw [Checksum_eq_sum, Checksum_eq_sum, (h.map Fin.val).sum_eq]
  · rw [Checksum_eq_sum, Checksum_eq_sum, ((List.reverse_perm a).map Fin.val).sum_eq]

theorem Checksum_perm_witness :
    Checksum [1, 2, 250] = Checksum [250, 1, 2]
      ∧ Checksum [1, 2, 250].reverse = Checksum [1, 2, 250] :=
  Checksum_perm [1, 2, 250] [250, 1, 2] (by decide)

/-! ## Retries -/

/-- Within a positive `int64` budget, the retry step takes one from the count and puts
the default in place of a zero interval. -/
theorem Retry_consume_eq (c i : Int) (h0 : 0 < c) (h64 : c < 2 ^ 63) :
    Retry.consume ⟨c, i⟩ = ⟨c - 1, if i = 0 then 100 else i⟩ := by
  have hw : wrapInt64 (c - 1) = c - 1 := by
    unfold wrapInt64
    omega
  unfold Retry.consume
  simp only [hw, gDEFAULT_RETRY_INTERVAL]
  split_ifs <;> rfl

/-- A read that fails with no byte and a non-EOF error, with retries left: one retry is
consumed, the call sleeps and reads again. -/
theorem Receive_loop_retry (writes : List WriteResult) (code : Nat) (reads : List ReadResult)
    (p : Retry) (ps : List Retry) (data : List Byte) (trace : List Event)
    (hp : p.Count ≠ 0) :
    Receive.loop writes (failedRead code :: reads) (p :: ps) data trace
      = Receive.loop writes reads (p.consume :: ps) data
          (trace ++ [Event.read, Event.sleep (sleepDuration p.consume.Interval)]) := by
  simp [Receive.loop, failedRead, hp]

/-- A read that fails with no byte and a non-EOF error, with no retry left: the loop ends
with the data so far and that error. -/
theorem Receive_loop_exhausted (writes : List WriteResult) (code : Nat)
    (reads : List ReadResult) (i : Int) (ps : List Retry) (data : List Byte)
    (trace : List Event) :
    Receive.loop writes (failedRead code :: reads) (⟨0, i⟩ :: ps) data trace
      = Outcome.returned ⟨data, some (Error.Other code), ⟨0, i⟩ :: ps,
          ⟨reads, writes, trace ++ [Event.read]⟩⟩ := by
  simp [Receive.loop, failedRead]

/-- Failed reads within the budget: each consumes one retry and is followed by one sleep
of the policy's interval, the default standing in for a zero interval. -/
theorem Receive_loop_retries (writes : List WriteResult) (reads : List ReadResult)
    (ps : List Retry) (data : List Byte) :
    ∀ (codes : List Nat) (c i : Int) (trace : List Event),
      (codes.length : Int) ≤ c → c < 2 ^ 63 →
      Receive.loop writes (codes.map failedRead ++ reads) (⟨c, i⟩ :: ps) data trace
        = Receive.loop writes reads
            (⟨c - codes.length, if codes = [] then i else if i = 0 then 100 else i⟩ :: ps) data
            (trace ++ retried (sleepDuration (if i = 0 then 100 else i))
              (codes.map (fun _ => Event.read))) := by
  intro codes
  induction codes with
  | nil => intro c i trace _ _; simp [retried]
  | cons code codes ih =>
    intro c i trace hk h64
    have hlen : ((code :: codes).length : Int) = (codes.length : Int) + 1 := by simp
    have hpos : 0 < c := by omega
    have hne : (⟨c, i⟩ : Retry).Count ≠ 0 := by simp only []; omega
    rw [List.map_cons, List.cons_append, Receive_loop_retry writes code _ ⟨c, i⟩ ps data trace hne,
      Retry_consume_eq c i hpos h64, ih (c - 1) _ _ (by omega) (by omega)]
    have hc : c - 1 - (codes.length : Int) = c - ((code :: codes).length : Int) := by omega
    have hi : (if (if i = 0 then (100 : Int) else i) = 0 then (100 : Int)
        else (if i = 0 then 100 else i)) = if i = 0 then 100 else i := by
      split_ifs <;> simp_all
    rw [hc, hi]
    congr 1
    · by_cases hcodes : codes = [] <;> simp [hcodes]
    · simp [retried]

/-- C7: with a budget of `c >= 0` retries and `k <= c` reads failing with no byte and a
non-EOF error, followed by a short chunk other than the split mark read with no error,
`Receive` returns that chunk and a nil error; the count left is `c - k`, and the trace is
`k` times a read followed by a sleep of the policy's interval (100 ms for a zero
interval), then the read of the chunk. -/
theorem Receive_retry_success (c i : Int) (codes : List Nat) (chunk : List Byte)
    (ps : List Retry) (conn : Conn) (reads : List ReadResult)
    (h64 : c < 2 ^ 63) (hk : (codes.length : Int) ≤ c)
    (hshort : chunk.length < 1024) (hmark : chunk ≠ pkgSplitMark) :
    Receive ⟨codes.map failedRead ++ ⟨chunk, none⟩ :: reads, conn.writes, conn.trace⟩
        (⟨c, i⟩ :: ps)
      = Outcome.returned ⟨chunk, none,
          ⟨c - codes.length, if codes = [] then i else if i = 0 then 100 else i⟩ :: ps,
          ⟨reads, conn.writes,
            conn.trace ++ retried (sleepDuration (if i = 0 then 100 else i))
              (List.replicate codes.length Event.read) ++ [Event.read]⟩⟩ := by
  have hrep : codes.map (fun _ => Event.read) = List.replicate codes.length Event.read := by
    simp [List.map_const']
  simp only [Receive]
  rw [Receive_loop_retries conn.writes _ ps [] codes c i conn.trace hk h64,
    Receive_loop_short conn.writes chunk reads _ [] _ hshort hmark, hrep]
  simp

theorem Receive_retry_success_witness :
    Receive ⟨[failedRead 1, failedRead 2, ⟨[7, 8, 9], none⟩], [], []⟩ [⟨2, 10⟩]
      = Outcome.returned ⟨[7, 8, 9], none, [⟨0, 10⟩],
          ⟨[], [], [Event.read, Event.sleep 10000000, Event.read, Event.sleep 10000000,
            Event.read]⟩⟩ :=
  Receive_retry_success 2 10 [1, 2] [7, 8, 9] [] ⟨[], [], []⟩ [] (by decide) (by decide)
    (by decide) (by decide)

/-- A write that fails with a non-EOF error, with retries left: one retry is consumed, the
call sleeps and writes the same buffer again. -/
theorem Send_loop_retry (reads : List ReadResult) (data : List Byte) (f : Int × Nat)
    (writes : List WriteResult) (p : Retry) (ps : List Retry) (length : Int)
    (trace : List Event) (hp : p.Count ≠ 0) :
    Send.loop reads data (failedWrite f :: writes) (p :: ps) length trace
      = Send.loop reads data writes (p.consume :: ps) length
          (trace ++ [Event.write data f.1, Event.sleep (sleepDuration p.consume.Interval)]) := by
  simp [Send.loop, failedWrite, hp]

/-- Failed writes within the budget: each consumes one retry and is followed by one sleep
of the policy's interval, the default standing in for a zero interval. -/
theorem Send_loop_retries (reads : List ReadResult) (data : List Byte)
    (writes : List WriteResult) (ps : List Retry) (length : Int) :
    ∀ (fails : List (Int × Nat)) (c i : Int) (trace : List Event),
      (fails.length : Int) ≤ c → c < 2 ^ 63 →
      Send.loop reads data (fails.map failedWrite ++ writes) (⟨c, i⟩ :: ps) length trace
        = Send.loop reads data writes
            (⟨c - fails.length, if fails = [] then i else if i = 0 then 100 else i⟩ :: ps)
            length
            (trace ++ retried (sleepDuration (if i = 0 then 100 else i))
              (fails.map (fun f => Event.write data f.1))) := by
  intro fails
  induction fails with
  | nil => intro c i trace _ _; simp [retried]
  | cons f fails ih =>
    intro c i trace hk h64
    have hlen : ((f :: fails).length : Int) = (fails.length : Int) + 1 := by simp
    have hpos : 0 < c := by omega
    have hne : (⟨c, i⟩ : Retry).Count ≠ 0 := by simp only []; omega
    rw [List.map_cons, List.cons_append,
      Send_loop_retry reads data f _ ⟨c, i⟩ ps length trace hne,
      Retry_consume_eq c i hpos h64, ih (c - 1) _ _ (by omega) (by omega)]
    have hc : c - 1 - (fails.length : Int) = c - ((f :: fails).length : Int) := by omega
    have hi : (if (if i = 0 then (100 : Int) else i) = 0 then (100 : Int)
        else (if i = 0 then 100 else i)) = if i = 0 then 100 else i := by
      split_ifs <;> simp_all
    rw [hc, hi]
    congr 1
    · by_cases hfails : fails = [] <;> simp [hfails]
    · simp [retried]

/-- C8: with a budget of `c >= 0` retries and `k <= c` writes failing with a non-EOF
error, followed by a write that accepts the whole buffer with no error, `Send` returns
nil; the count left is `c - k`, and the trace is `k` times a write of the whole buffer
followed by a sleep of the policy's interval (100 ms for a zero interval), then the
accepted write. -/
theorem Send_retry_success (c i : Int) (fails : List (Int × Nat)) (payload : List Byte)
    (ps : List Retry) (conn : Conn) (writes : List WriteResult)
    (h64 : c < 2 ^ 63) (hk : (fails.length : Int) ≤ c) :
    Send ⟨conn.reads,
        fails.map failedWrite ++ ⟨(Send.frame payload).length, none⟩ :: writes, conn.trace⟩
        payload (⟨c, i⟩ :: ps)
      = Outcome.returned ⟨none,
          ⟨c - fails.length, if fails = [] then i else if i = 0 then 100 else i⟩ :: ps,
          ⟨conn.reads, writes,
            conn.trace ++ retried (sleepDuration (if i = 0 then 100 else i))
              (fails.map (fun f => Event.write (Send.frame payload) f.1))
              ++ [Event.write (Send.frame payload) (Send.frame payload).length]⟩⟩ := by
  simp only [Send]
  rw [Send_loop_retries conn.reads _ _ ps 0 fails c i conn.trace hk h64, Send_loop_full]

theorem Send_retry_success_witness :
    Send ⟨[], [failedWrite (0, 1), failedWrite (2, 2), ⟨3, none⟩], []⟩ [7, 8, 9] [⟨2, 10⟩]
      = Outcome.returned ⟨none, [⟨0, 10⟩],
          ⟨[], [], [Event.write [7, 8, 9] 0, Event.sleep 10000000,
            Event.write [7, 8, 9] 2, Event.sleep 10000000, Event.write [7, 8, 9] 3]⟩⟩ :=
  Send_retry_success 2 10 [(0, 1), (2, 2)] [7, 8, 9] [] ⟨[], [], []⟩ [] (by decide)
    (by decide)

/-- C9: with a policy whose count is 0, whatever its interval, a first write that fails
with any error ends `Send` with that error: the trace gains that one write and no
sleep, and the policy is left as it was. -/
theorem Send_zero_budget (conn : Conn) (payload : List Byte) (i n : Int) (e : Error)
    (ps : List Retry) (writes : List WriteResult) :
    Send ⟨conn.reads, ⟨n, some e⟩ :: writes, conn.trace⟩ payload (⟨0, i⟩ :: ps)
      = Outcome.returned ⟨some e, ⟨0, i⟩ :: ps,
          ⟨conn.reads, writes, conn.trace ++ [Event.write (Send.frame payload) n]⟩⟩ := by
  cases e <;> simp [Send, Send.loop]

/-- Full chunks read with no error are appended in order, one read each. -/
theorem Receive_loop_fulls (writes : List WriteResult) (reads : List ReadResult)
    (retry : List Retry) :
    ∀ (chunks : List (List Byte)) (data : List Byte) (trace : List Event),
      (∀ ch ∈ chunks, ch.length = 1024) →
      Receive.loop writes (chunks.map (fun ch => ⟨ch, none⟩) ++ reads) retry data trace
        = Receive.loop writes reads retry (data ++ chunks.flatten)
            (trace ++ List.replicate chunks.length Event.read) := by
  intro chunks
  induction chunks with
  | nil => intro data trace _; simp
  | cons ch chunks ih =>
    intro data trace hfull
    rw [List.map_cons, List.cons_append,
      Receive_loop_full writes ch _ retry data trace (hfull ch (List.mem_cons_self _ _)),
      ih _ _ (fun x hx => hfull x (List.mem_cons_of_mem _ hx))]
    simp [List.replicate_succ]

/-- C10: with a budget of `c >= 0` retries, after `m` full 1024-byte reads with no error,
reads that fail with no byte and a non-EOF error are retried `c` times, each retry after
one sleep; the failing read that finds the count at 0 ends `Receive`, which returns the
`m` chunks concatenated together with the error of that last read. -/
theorem Receive_retry_exhausted (c i : Int) (chunks : List (List Byte)) (codes : List Nat)
    (code : Nat) (ps : List Retry) (conn : Conn) (reads : List ReadResult)
    (h64 : c < 2 ^ 63) (hk : (codes.length : Int) = c)
    (hfull : ∀ ch ∈ chunks, ch.length = 1024) :
    Receive ⟨chunks.map (fun ch => ⟨ch, none⟩)
          ++ (codes.map failedRead ++ failedRead code :: reads), conn.writes, conn.trace⟩
        (⟨c, i⟩ :: ps)
      = Outcome.returned ⟨chunks.flatten, some (Error.Other code),
          ⟨0, if codes = [] then i else if i = 0 then 100 else i⟩ :: ps,
          ⟨reads, conn.writes,
            conn.trace ++ List.replicate chunks.length Event.read
              ++ retried (sleepDuration (if i = 0 then 100 else i))
                  (List.replicate codes.length Event.read)
              ++ [Event.read]⟩⟩ := by
  have hrep : codes.map (fun _ => Event.read) = List.replicate codes.length Event.read := by
    simp [List.map_const']
  have hzero : c - (codes.length : Int) = 0 := by omega
  simp only [Receive]
  rw [Receive_loop_fulls conn.writes _ (⟨c, i⟩ :: ps) chunks [] conn.trace hfull,
    Receive_loop_retries conn.writes _ ps _ codes c i _ (by omega) h64, hzero,
    Receive_loop_exhausted, hrep]
  simp

theorem Receive_retry_exhausted_witness :
    Receive ⟨([List.replicate 1024 (0 : Byte)] : List (List Byte)).map (fun ch => ⟨ch, none⟩)
          ++ (([5] : List Nat).map failedRead ++ failedRead 6 :: [failedRead 7]), [], []⟩
        [⟨1, 0⟩]
      = Outcome.returned ⟨([List.replicate 1024 (0 : Byte)] : List (List Byte)).flatten,
          some (Error.Other 6), [⟨0, 100⟩],
          ⟨[failedRead 7], [],
            [Event.read, Event.read, Event.sleep 100000000, Event.read]⟩⟩ :=
  Receive_retry_exhausted 1 0 [List.replicate 1024 0] [5] 6 [] ⟨[], [], []⟩ [failedRead 7]
    (by decide) (by decide)
    (by intro ch h; rw [List.mem_singleton] at h; rw [h, List.length_replicate])

/-! ## End of stream in Send -/

/-- C11: a write that fails with end-of-stream ends `Send` with that error at once,
whatever the retry policy and its count and at whatever iteration of the loop: no further
write is issued, no sleep is made and the policy is left as it was. -/
theorem Send_eof (conn : Conn) (payload data : List Byte) (retry : List Retry) (n length : Int)
    (writes : List WriteResult) :
    Send.loop conn.reads data (⟨n, some Error.EOF⟩ :: writes) retry length conn.trace
        = Outcome.returned ⟨some Error.EOF, retry,
            ⟨conn.reads, writes, conn.trace ++ [Event.write data n]⟩⟩
      ∧ Send ⟨conn.reads, ⟨n, some Error.EOF⟩ :: writes, conn.trace⟩ payload retry
        = Outcome.returned ⟨some Error.EOF, retry,
            ⟨conn.reads, writes, conn.trace ++ [Event.write (Send.frame payload) n]⟩⟩ := by
  constructor <;> simp [Send, Send.loop]

/-! ## SendReceive -/

/-- The loop of `Send` consumes no read: the coming reads are untouched and the events it
adds to the trace are writes and sleeps. -/
theorem Send_loop_events (reads : List ReadResult) (data : List Byte) :
    ∀ (writes : List WriteResult) (retry : List Retry) (length : Int) (trace : List Event),
      (Send.reached (Send.loop reads data writes retry length trace)).reads = reads
      ∧ ∃ added : List Event,
        (Send.reached (Send.loop reads data writes retry length trace)).trace = trace ++ added
        ∧ Event.read ∉ added := by
  intro writes
  induction writes with
  | nil =>
    intro retry length trace
    exact ⟨by simp [Send.loop, Send.reached], [], by simp [Send.loop, Send.reached], by simp⟩
  | cons w writes ih =>
    intro retry length trace
    have stop : ∀ (e : Option Error) (r : List Retry),
        (Send.reached (Outcome.returned
            ⟨e, r, ⟨reads, writes, trace ++ [Event.write data w.n]⟩⟩)).reads = reads
        ∧ ∃ added : List Event,
          (Send.reached (Outcome.returned
            ⟨e, r, ⟨reads, writes, trace ++ [Event.write data w.n]⟩⟩)).trace = trace ++ added
          ∧ Event.read ∉ added := by
      intro e r
      exact ⟨rfl, [Event.write data w.n], by simp [Send.reached], by simp⟩
    unfold Send.loop
    simp only []
    split_ifs with h1 h2 h3
    · exact stop _ _
    · cases retry with
      | nil => exact stop _ _
      | cons p ps =>
        simp only []
        split_ifs with h4
        · exact stop _ _
        · obtain ⟨hr, added, ht, hn⟩ := ih (p.consume :: ps) length
            (trace ++ [Event.write data w.n] ++
              [Event.sleep (sleepDuration p.consume.Interval)])
          refine ⟨hr, Event.write data w.n :: Event.sleep (sleepDuration p.consume.Interval)
            :: added, ?_, ?_⟩
          · rw [ht]; simp
          · simpa using hn
    · exact stop _ _
    · obtain ⟨hr, added, ht, hn⟩ := ih retry (wrapInt64 (length + w.n))
        (trace ++ [Event.write data w.n])
      refine ⟨hr, Event.write data w.n :: added, ?_, ?_⟩
      · rw [ht]; simp
      · simpa using hn

/-- C12: when the send phase returns an error, `SendReceive` returns no data and that
error, the connection being as `Send` left it: its coming reads untouched and no read in
the trace; when the send phase returns nil, `SendReceive` ends as `Receive` does when
called with no retry policy on the connection as `Send` left it, with the same data,
error and connection. -/
theorem SendReceive_sequencing (conn : Conn) (payload : List Byte) (retry : List Retry)
    (s : SendResult) (hs : Send conn payload retry = Outcome.returned s) :
    (s.err ≠ none →
        SendReceive conn payload retry = Outcome.returned ⟨[], s.err, s.retry, s.conn⟩
        ∧ s.conn.reads = conn.reads
        ∧ ∃ added : List Event, s.conn.trace = conn.trace ++ added ∧ Event.read ∉ added)
      ∧ (s.err = none →
        (∀ r, Receive s.conn [] = Outcome.returned r →
          SendReceive conn payload retry = Outcome.returned ⟨r.data, r.err, s.retry, r.conn⟩)
        ∧ (∀ c, Receive s.conn [] = Outcome.blocked c →
          SendReceive conn payload retry = Outcome.blocked c)) := by
  have hev := Send_loop_events conn.reads (Send.frame payload) conn.writes retry 0 conn.trace
  have hs2 : Send.loop conn.reads (Send.frame payload) conn.writes retry 0 conn.trace
      = Outcome.returned s := hs
  rw [hs2] at hev
  constructor
  · intro he
    refine ⟨?_, hev.1, hev.2⟩
    simp [SendReceive, hs, he]
  · intro he
    constructor
    · intro r hr
      simp [SendReceive, hs, he, hr]
    · intro c hc
      simp [SendReceive, hs, he, hc]

theorem SendReceive_sequencing_witness :
    ((none : Option Error) ≠ none →
        SendReceive ⟨[⟨[1, 2], none⟩], [⟨3, none⟩], []⟩ [7, 8, 9] [⟨2, 10⟩]
          = Outcome.returned ⟨[], none, [⟨2, 10⟩],
              ⟨[⟨[1, 2], none⟩], [], [Event.write [7, 8, 9] 3]⟩⟩
        ∧ [(⟨[1, 2], none⟩ : ReadResult)] = [⟨[1, 2], none⟩]
        ∧ ∃ added : List Event,
          [Event.write [7, 8, 9] 3] = [] ++ added ∧ Event.read ∉ added)
      ∧ ((none : Option Error) = none →
        (∀ r, Receive ⟨[⟨[1, 2], none⟩], [], [Event.write [7, 8, 9] 3]⟩ []
            = Outcome.returned r →
          SendReceive ⟨[⟨[1, 2], none⟩], [⟨3, none⟩], []⟩ [7, 8, 9] [⟨2, 10⟩]
            = Outcome.returned ⟨r.data, r.err, [⟨2, 10⟩], r.conn⟩)
        ∧ (∀ c, Receive ⟨[⟨[1, 2], none⟩], [], [Event.write [7, 8, 9] 3]⟩ []
            = Outcome.blocked c →
          SendReceive ⟨[⟨[1, 2], none⟩], [⟨3, none⟩], []⟩ [7, 8, 9] [⟨2, 10⟩]
            = Outcome.blocked c)) :=
  SendReceive_sequencing ⟨[⟨[1, 2], none⟩], [⟨3, none⟩], []⟩ [7, 8, 9] [⟨2, 10⟩]
    ⟨none, [⟨2, 10⟩], ⟨[⟨[1, 2], none⟩], [], [Event.write [7, 8, 9] 3]⟩⟩ (by decide)

/-- Both ways of `SendReceive`: a send that fails with a non-EOF error and no retry left
returns no data and that error, the coming read untouched; a send that succeeds is
followed by a `Receive` that does not retry, whatever the caller's policy. -/
theorem SendReceive_run :
    SendReceive ⟨[⟨[1, 2], none⟩], [failedWrite (0, 4)], []⟩ [7, 8, 9] [⟨0, 10⟩]
        = Outcome.returned ⟨[], some (Error.Other 4), [⟨0, 10⟩],
            ⟨[⟨[1, 2], none⟩], [], [Event.write [7, 8, 9] 0]⟩⟩
      ∧ SendReceive ⟨[failedRead 5, ⟨[1, 2], none⟩], [⟨3, none⟩], []⟩ [7, 8, 9] [⟨2, 10⟩]
        = Outcome.returned ⟨[], some (Error.Other 5), [⟨2, 10⟩],
            ⟨[⟨[1, 2], none⟩], [], [Event.write [7, 8, 9] 3, Event.read]⟩⟩ := by
  decide

/-! ## Data read together with an error -/

/-- C13, as amended: a read of `n >= 1` bytes together with an error does not take the
retry path: no retry is consumed and no sleep made, and the bytes are handled as data.
The split mark ends the loop and is dropped; other bytes are appended and end the loop
when `n < 1024` or the error is `io.EOF`; otherwise the loop goes on.  When that read ends
the loop, `Receive` returns the accumulated payload together with the error of that
read, which is not nil. -/
theorem Receive_data_with_error (writes : List WriteResult) (bytes : List Byte) (e : Error)
    (reads : List ReadResult) (retry : List Retry) (data : List Byte) (trace : List Event)
    (hn : 1 ≤ bytes.length) :
    Receive.loop writes (⟨bytes, some e⟩ :: reads) retry data trace
      = if bytes = pkgSplitMark then
          Outcome.returned ⟨data, some e, retry, ⟨reads, writes, trace ++ [Event.read]⟩⟩
        else if bytes.length < 1024 ∨ e = Error.EOF then
          Outcome.returned ⟨data ++ bytes, some e, retry,
            ⟨reads, writes, trace ++ [Event.read]⟩⟩
        else
          Receive.loop writes reads retry (data ++ bytes) (trace ++ [Event.read]) := by
  have h1 : ¬ bytes.length < 1 := by omega
  by_cases hm : bytes = pkgSplitMark
  · subst hm
    simp [Receive.loop, h1]
  · have hm2 : ¬ pkgSplitMark = bytes := fun h => hm h.symm
    simp [Receive.loop, h1, hm, hm2, gDEFAULT_READ_BUFFER_SIZE]

theorem Receive_data_with_error_witness :
    Receive.loop [] [⟨[1, 2, 3], some (Error.Other 7)⟩] [⟨2, 10⟩] [9] []
      = if ([1, 2, 3] : List Byte) = pkgSplitMark then
          Outcome.returned ⟨[9], some (Error.Other 7), [⟨2, 10⟩], ⟨[], [], [] ++ [Event.read]⟩⟩
        else if ([1, 2, 3] : List Byte).length < 1024 ∨ Error.Other 7 = Error.EOF then
          Outcome.returned ⟨[9] ++ [1, 2, 3], some (Error.Other 7), [⟨2, 10⟩],
            ⟨[], [], [] ++ [Event.read]⟩⟩
        else
          Receive.loop [] [] [⟨2, 10⟩] ([9] ++ [1, 2, 3]) ([] ++ [Event.read]) :=
  Receive_data_with_error [] [1, 2, 3] (Error.Other 7) [] [⟨2, 10⟩] [9] [] (by decide)

/-- C13 fails as stated: a read of one byte together with a non-EOF error ends `Receive`,
which returns that byte and the error of the read, not a nil error; the same holds when
the bytes read with an error are the split mark. -/
theorem Receive_data_with_error_counterexample :
    Receive ⟨[⟨[1], some (Error.Other 7)⟩], [], []⟩ [⟨2, 10⟩]
        = Outcome.returned ⟨[1], some (Error.Other 7), [⟨2, 10⟩], ⟨[], [], [Event.read]⟩⟩
      ∧ Receive ⟨[⟨pkgSplitMark, some (Error.Other 7)⟩], [], []⟩ [⟨2, 10⟩]
        = Outcome.returned ⟨[], some (Error.Other 7), [⟨2, 10⟩], ⟨[], [], [Event.read]⟩⟩
      ∧ (some (Error.Other 7) : Option Error) ≠ none := by
  decide

/-! ## Reassembly -/

/-- C14: on `m` full 1024-byte reads followed by a read of fewer than 1024 bytes, all with
no error, `Receive` makes exactly `m + 1` reads and returns the `m` chunks concatenated in
order, followed by the bytes of the last read unless they are the split mark (5 bytes),
which is dropped. -/
theorem Receive_reassembly (conn : Conn) (chunks : List (List Byte)) (last : List Byte)
    (reads : List ReadResult) (retry : List Retry)
    (hfull : ∀ ch ∈ chunks, ch.length = 1024) (hshort : last.length < 1024) :
    Receive ⟨chunks.map (fun ch => ⟨ch, none⟩) ++ ⟨last, none⟩ :: reads,
        conn.writes, conn.trace⟩ retry
      = Outcome.returned
          ⟨chunks.flatten ++ (if last.length = 5 ∧ last = [0, 69, 79, 80, 0] then [] else last),
            none, retry,
            ⟨reads, conn.writes,
              conn.trace ++ List.replicate (chunks.length + 1) Event.read⟩⟩ := by
  simp only [Receive]
  rw [Receive_loop_fulls conn.writes _ retry chunks [] conn.trace hfull]
  by_cases hm : last = pkgSplitMark
  · subst hm
    rw [Receive_loop_mark]
    simp [pkgSplitMark, List.replicate_succ']
  · rw [Receive_loop_short conn.writes last reads retry _ _ hshort hm]
    have hm2 : ¬ (last.length = 5 ∧ last = [0, 69, 79, 80, 0]) := fun h => hm h.2
    simp [hm2, List.replicate_succ']

theorem Receive_reassembly_witness :
    Receive ⟨([List.replicate 1024 (1 : Byte)] : List (List Byte)).map (fun ch => ⟨ch, none⟩)
          ++ ⟨[0, 69, 79, 80, 0], none⟩ :: [], [], []⟩ []
      = Outcome.returned
          ⟨([List.replicate 1024 (1 : Byte)] : List (List Byte)).flatten
              ++ (if ([0, 69, 79, 80, 0] : List Byte).length = 5
                    ∧ ([0, 69, 79, 80, 0] : List Byte) = [0, 69, 79, 80, 0] then [] else
                  [0, 69, 79, 80, 0]),
            none, [], ⟨[], [], [Event.read, Event.read]⟩⟩ :=
  Receive_reassembly ⟨[], [], []⟩ [List.replicate 1024 1] [0, 69, 79, 80, 0] [] []
    (by intro ch h; rw [List.mem_singleton] at h; rw [h, List.length_replicate])
    (by decide)

/-! ## No policy and a policy with no budget -/

/-- With a count of 0 the loop of `Receive` runs as with no policy: same outcome, the
policy left as it was, and only reads in the trace. -/
theorem Receive_loop_zero_budget (writes : List WriteResult) (i : Int) (ps : List Retry) :
    ∀ (reads : List ReadResult) (data : List Byte) (trace : List Event),
      Receive.loop writes reads (⟨0, i⟩ :: ps) data trace
          = (match Receive.loop writes reads [] data trace with
            | Outcome.returned r => Outcome.returned ⟨r.data, r.err, ⟨0, i⟩ :: ps, r.conn⟩
            | Outcome.blocked c => Outcome.blocked c)
        ∧ ∃ added : List Event,
          (Receive.reached (Receive.loop writes reads [] data trace)).trace = trace ++ added
          ∧ ∀ e ∈ added, e = Event.read := by
  intro reads
  induction reads with
  | nil =>
    intro data trace
    exact ⟨by simp [Receive.loop], [], by simp [Receive.loop, Receive.reached], by simp⟩
  | cons r reads ih =>
    intro data trace
    have stop : ∀ (d : List Byte) (e : Option Error),
        ∃ added : List Event,
          (Receive.reached (Outcome.returned
            ⟨d, e, [], ⟨reads, writes, trace ++ [Event.read]⟩⟩)).trace = trace ++ added
          ∧ ∀ x ∈ added, x = Event.read := by
      intro d e
      exact ⟨[Event.read], by simp [Receive.reached], by simp⟩
    obtain ⟨h1, added, h2, h3⟩ := ih (data ++ r.bytes) (trace ++ [Event.read])
    have go : ∃ added : List Event,
        (Receive.reached (Receive.loop writes reads [] (data ++ r.bytes)
          (trace ++ [Event.read]))).trace = trace ++ added
        ∧ ∀ x ∈ added, x = Event.read := by
      refine ⟨Event.read :: added, by rw [h2]; simp, ?_⟩
      intro x hx
      rcases List.mem_cons.mp hx with hx | hx
      · exact hx
      · exact h3 x hx
    unfold Receive.loop
    simp only []
    split_ifs
    · exact ⟨rfl, stop _ _⟩
    · exact ⟨by simp, stop _ _⟩
    · exact ⟨rfl, stop _ _⟩
    · exact ⟨rfl, stop _ _⟩
    · exact ⟨h1, go⟩

/-- With a count of 0 the loop of `Send` runs as with no policy: same outcome, the policy
left as it was, and only writes of the buffer in the trace. -/
theorem Send_loop_zero_budget (reads : List ReadResult) (data : List Byte) (i : Int)
    (ps : List Retry) :
    ∀ (writes : List WriteResult) (length : Int) (trace : List Event),
      Send.loop reads data writes (⟨0, i⟩ :: ps) length trace
          = (match Send.loop reads data writes [] length trace with
            | Outcome.returned s => Outcome.returned ⟨s.err, ⟨0, i⟩ :: ps, s.conn⟩
            | Outcome.blocked c => Outcome.blocked c)
        ∧ ∃ added : List Event,
          (Send.reached (Send.loop reads data writes [] length trace)).trace = trace ++ added
          ∧ ∀ e ∈ added, ∃ n, e = Event.write data n := by
  intro writes
  induction writes with
  | nil =>
    intro length trace
    exact ⟨by simp [Send.loop], [], by simp [Send.loop, Send.reached], by simp⟩
  | cons w writes ih =>
    intro length trace
    have stop : ∀ (e : Option Error),
        ∃ added : List Event,
          (Send.reached (Outcome.returned
            ⟨e, [], ⟨reads, writes, trace ++ [Event.write data w.n]⟩⟩)).trace = trace ++ added
          ∧ ∀ x ∈ added, ∃ n, x = Event.write data n := by
      intro e
      exact ⟨[Event.write data w.n], by simp [Send.reached], by simp⟩
    obtain ⟨h1, added, h2, h3⟩ := ih (wrapInt64 (length + w.n))
      (trace ++ [Event.write data w.n])
    have go : ∃ added : List Event,
        (Send.reached (Send.loop reads data writes [] (wrapInt64 (length + w.n))
          (trace ++ [Event.write data w.n]))).trace = trace ++ added
        ∧ ∀ x ∈ added, ∃ n, x = Event.write data n := by
      refine ⟨Event.write data w.n :: added, by rw [h2]; simp, ?_⟩
      intro x hx
      rcases List.mem_cons.mp hx with hx | hx
      · exact ⟨w.n, hx⟩
      · exact h3 x hx
    unfold Send.loop
    simp only []
    split_ifs
    · exact ⟨rfl, stop _⟩
    · exact ⟨by simp, stop _⟩
    · exact ⟨rfl, stop _⟩
    · exact ⟨h1, go⟩

/-- C15: on every connection, `Receive` with a policy whose count is 0 (any interval) ends
as `Receive` with no policy does: same data, error and connection (reads made, trace),
the trace gaining reads only, no sleep; and `Send` with such a policy ends as `Send` with
no policy does: same error and connection, the trace gaining writes of the buffer only. -/
theorem zero_budget_as_no_policy (conn : Conn) (payload : List Byte) (i : Int)
    (ps : List Retry) :
    Receive conn (⟨0, i⟩ :: ps)
        = (match Receive conn [] with
          | Outcome.returned r => Outcome.returned ⟨r.data, r.err, ⟨0, i⟩ :: ps, r.conn⟩
          | Outcome.blocked c => Outcome.blocked c)
      ∧ (∃ added : List Event,
          (Receive.reached (Receive conn [])).trace = conn.trace ++ added
          ∧ ∀ e ∈ added, e = Event.read)
      ∧ Send conn payload (⟨0, i⟩ :: ps)
        = (match Send conn payload [] with
          | Outcome.returned s => Outcome.returned ⟨s.err, ⟨0, i⟩ :: ps, s.conn⟩
          | Outcome.blocked c => Outcome.blocked c)
      ∧ (∃ added : List Event,
          (Send.reached (Send conn payload [])).trace = conn.trace ++ added
          ∧ ∀ e ∈ added, ∃ n, e = Event.write (Send.frame payload) n) := by
  obtain ⟨r1, r2⟩ := Receive_loop_zero_budget conn.writes i ps conn.reads [] conn.trace
  obtain ⟨s1, s2⟩ := Send_loop_zero_budget conn.reads (Send.frame payload) i ps conn.writes 0
    conn.trace
  exact ⟨r1, r2, s1, s2⟩

theorem zero_budget_as_no_policy_witness :
    Receive ⟨[failedRead 3], [failedWrite (1, 4)], []⟩ [⟨0, 10⟩]
        = Outcome.returned ⟨[], some (Error.Other 3), [⟨0, 10⟩],
            ⟨[], [failedWrite (1, 4)], [Event.read]⟩⟩
      ∧ Receive ⟨[failedRead 3], [failedWrite (1, 4)], []⟩ []
        = Outcome.returned ⟨[], some (Error.Other 3), [],
            ⟨[], [failedWrite (1, 4)], [Event.read]⟩⟩
      ∧ Send ⟨[failedRead 3], [failedWrite (1, 4)], []⟩ [7] [⟨0, 10⟩]
        = Outcome.returned ⟨some (Error.Other 4), [⟨0, 10⟩],
            ⟨[failedRead 3], [], [Event.write [7] 1]⟩⟩
      ∧ Send ⟨[failedRead 3], [failedWrite (1, 4)], []⟩ [7] []
        = Outcome.returned ⟨some (Error.Other 4), [],
            ⟨[failedRead 3], [], [Event.write [7] 1]⟩⟩ :=
  ⟨(zero_budget_as_no_policy ⟨[failedRead 3], [failedWrite (1, 4)], []⟩ [7] 10 []).1,
    by decide,
    (zero_budget_as_no_policy ⟨[failedRead 3], [failedWrite (1, 4)], []⟩ [7] 10 []).2.2.1,
    by decide⟩

/-! ## The retry interval -/

theorem sleeps_append (a b : List Event) : sleeps (a ++ b) = sleeps a ++ sleeps b := by
  induction a with
  | nil => rfl
  | cons e a ih => cases e <;> simp [sleeps, ih]

theorem sleeps_of_reads (added : List Event) (h : ∀ e ∈ added, e = Event.read) :
    sleeps added = [] := by
  induction added with
  | nil => rfl
  | cons e added ih =>
    have he : e = Event.read := h e (List.mem_cons_self _ _)
    subst he
    simpa [sleeps] using ih (fun x hx => h x (List.mem_cons_of_mem _ hx))

theorem sleeps_of_writes (data : List Byte) (added : List Event)
    (h : ∀ e ∈ added, ∃ n, e = Event.write data n) : sleeps added = [] := by
  induction added with
  | nil => rfl
  | cons e added ih =>
    obtain ⟨n, he⟩ := h e (List.mem_cons_self _ _)
    subst he
    simpa [sleeps] using ih (fun x hx => h x (List.mem_cons_of_mem _ hx))

/-- The retry step leaves a non-zero interval as it is and puts 100 for a zero one. -/
theorem Retry_consume_Interval (p : Retry) :
    p.consume.Interval = if p.Interval = 0 then 100 else p.Interval := by
  unfold Retry.consume
  simp only [gDEFAULT_RETRY_INTERVAL]
  split_ifs <;> rfl

theorem Retry_consume_Interval_idem (p : Retry) :
    (if p.consume.Interval = 0 then (100 : Int) else p.consume.Interval)
      = if p.Interval = 0 then 100 else p.Interval := by
  rw [Retry_consume_Interval]
  split_ifs <;> simp_all

/-- The sleeps of `Receive`'s loop under a policy: `k` of them, one per retry, each of the
policy's interval, 100 ms standing in for a zero interval; the interval of the policy is
touched only when a retry occurs. -/
theorem Receive_loop_sleeps (writes : List WriteResult) (ps : List Retry) :
    ∀ (reads : List ReadResult) (p : Retry) (data : List Byte) (trace : List Event),
      ∃ k : Nat,
        sleeps (Receive.reached (Receive.loop writes reads (p :: ps) data trace)).trace
            = sleeps trace
              ++ List.replicate k (sleepDuration (if p.Interval = 0 then 100 else p.Interval))
        ∧ ∀ r, Receive.loop writes reads (p :: ps) data trace = Outcome.returned r →
            ∃ q : Retry, r.retry = q :: ps
              ∧ q.Interval = if k = 0 then p.Interval
                  else if p.Interval = 0 then 100 else p.Interval := by
  intro reads
  induction reads with
  | nil =>
    intro p data trace
    exact ⟨0, by simp [Receive.loop, Receive.reached], by simp [Receive.loop]⟩
  | cons r reads ih =>
    intro p data trace
    generalize hE : (if p.Interval = 0 then (100 : Int) else p.Interval) = E
    have stop : ∀ (d : List Byte) (e : Option Error),
        ∃ k : Nat,
          sleeps (Receive.reached (Outcome.returned
              ⟨d, e, p :: ps, ⟨reads, writes, trace ++ [Event.read]⟩⟩)).trace
            = sleeps trace
              ++ List.replicate k (sleepDuration E)
          ∧ ∀ x : ReceiveResult,
              Outcome.returned
                (⟨d, e, p :: ps, ⟨reads, writes, trace ++ [Event.read]⟩⟩ : ReceiveResult)
              = Outcome.returned x →
            ∃ q : Retry, x.retry = q :: ps
              ∧ q.Interval = if k = 0 then p.Interval else E := by
      intro d e
      refine ⟨0, by simp [Receive.reached, sleeps_append, sleeps], ?_⟩
      intro x hx
      simp only [Outcome.returned.injEq] at hx
      subst hx
      exact ⟨p, rfl, by simp⟩
    unfold Receive.loop
    simp only []
    split_ifs
    · exact stop _ _
    · exact stop _ _
    · obtain ⟨k, hk1, hk2⟩ := ih p.consume data
        (trace ++ [Event.read] ++ [Event.sleep (sleepDuration p.consume.Interval)])
      refine ⟨k + 1, ?_, ?_⟩
      · rw [hk1, Retry_consume_Interval_idem, Retry_consume_Interval, hE]
        simp [sleeps_append, sleeps, List.replicate_succ]
      · intro x hx
        obtain ⟨q, hq1, hq2⟩ := hk2 x hx
        refine ⟨q, hq1, ?_⟩
        rw [hq2, Retry_consume_Interval_idem, Retry_consume_Interval, hE]
        simp
    · exact stop _ _
    · exact stop _ _
    · obtain ⟨k, hk1, hk2⟩ := ih p (data ++ r.bytes) (trace ++ [Event.read])
      rw [hE] at hk1 hk2
      refine ⟨k, ?_, hk2⟩
      rw [hk1]
      simp [sleeps_append, sleeps]

/-- The sleeps of `Send`'s loop under a policy: `k` of them, one per retry, each of the
policy's interval, 100 ms standing in for a zero interval; the interval of the policy is
touched only when a retry occurs. -/
theorem Send_loop_sleeps (reads : List ReadResult) (data : List Byte) (ps : List Retry) :
    ∀ (writes : List WriteResult) (p : Retry) (length : Int) (trace : List Event),
      ∃ k : Nat,
        sleeps (Send.reached (Send.loop reads data writes (p :: ps) length trace)).trace
            = sleeps trace
              ++ List.replicate k (sleepDuration (if p.Interval = 0 then 100 else p.Interval))
        ∧ ∀ s, Send.loop reads data writes (p :: ps) length trace = Outcome.returned s →
            ∃ q : Retry, s.retry = q :: ps
              ∧ q.Interval = if k = 0 then p.Interval
                  else if p.Interval = 0 then 100 else p.Interval := by
  intro writes
  induction writes with
  | nil =>
    intro p length trace
    exact ⟨0, by simp [Send.loop, Send.reached], by simp [Send.loop]⟩
  | cons w writes ih =>
    intro p length trace
    generalize hE : (if p.Interval = 0 then (100 : Int) else p.Interval) = E
    have stop : ∀ (e : Option Error),
        ∃ k : Nat,
          sleeps (Send.reached (Outcome.returned
              ⟨e, p :: ps, ⟨reads, writes, trace ++ [Event.write data w.n]⟩⟩)).trace
            = sleeps trace
              ++ List.replicate k (sleepDuration E)
          ∧ ∀ x : SendResult,
              Outcome.returned
                (⟨e, p :: ps, ⟨reads, writes, trace ++ [Event.write data w.n]⟩⟩ : SendResult)
              = Outcome.returned x →
            ∃ q : Retry, x.retry = q :: ps
              ∧ q.Interval = if k = 0 then p.Interval else E := by
      intro e
      refine ⟨0, by simp [Send.reached, sleeps_append, sleeps], ?_⟩
      intro x hx
      simp only [Outcome.returned.injEq] at hx
      subst hx
      exact ⟨p, rfl, by simp⟩
    unfold Send.loop
    simp only []
    split_ifs
    · exact stop _
    · exact stop _
    · obtain ⟨k, hk1, hk2⟩ := ih p.consume length
        (trace ++ [Event.write data w.n] ++ [Event.sleep (sleepDuration p.consume.Interval)])
      refine ⟨k + 1, ?_, ?_⟩
      · rw [hk1, Retry_consume_Interval_idem, Retry_consume_Interval, hE]
        simp [sleeps_append, sleeps, List.replicate_succ]
      · intro x hx
        obtain ⟨q, hq1, hq2⟩ := hk2 x hx
        refine ⟨q, hq1, ?_⟩
        rw [hq2, Retry_consume_Interval_idem, Retry_consume_Interval, hE]
        simp
    · exact stop _
    · obtain ⟨k, hk1, hk2⟩ := ih p (wrapInt64 (length + w.n)) (trace ++ [Event.write data w.n])
      rw [hE] at hk1 hk2
      refine ⟨k, ?_, hk2⟩
      rw [hk1]
      simp [sleeps_append, sleeps]

/-- C16: every sleep `Send` or `Receive` makes under a policy is a retry sleep of
`time.Duration(Interval) * time.Millisecond`, with the policy's `Interval` when it is not
0 and 100 when it is 0, which is that many milliseconds for an interval from 0 to
9223372036854; the policy's `Interval` is replaced only when a retry occurs: with no sleep
made (`k = 0`) the policy keeps its interval, 0 included.  With no policy no sleep is
made. -/
theorem retry_interval_default (conn : Conn) (payload : List Byte) (p : Retry)
    (ps : List Retry) :
    (∃ k : Nat,
        sleeps (Receive.reached (Receive conn (p :: ps))).trace
            = sleeps conn.trace
              ++ List.replicate k (sleepDuration (if p.Interval = 0 then 100 else p.Interval))
        ∧ ∀ r, Receive conn (p :: ps) = Outcome.returned r →
            ∃ q : Retry, r.retry = q :: ps
              ∧ q.Interval = if k = 0 then p.Interval
                  else if p.Interval = 0 then 100 else p.Interval)
      ∧ (∃ k : Nat,
        sleeps (Send.reached (Send conn payload (p :: ps))).trace
            = sleeps conn.trace
              ++ List.replicate k (sleepDuration (if p.Interval = 0 then 100 else p.Interval))
        ∧ ∀ s, Send conn payload (p :: ps) = Outcome.returned s →
            ∃ q : Retry, s.retry = q :: ps
              ∧ q.Interval = if k = 0 then p.Interval
                  else if p.Interval = 0 then 100 else p.Interval)
      ∧ sleeps (Receive.reached (Receive conn [])).trace = sleeps conn.trace
      ∧ sleeps (Send.reached (Send conn payload [])).trace = sleeps conn.trace
      ∧ (∀ x : Int, 0 ≤ x → x ≤ 9223372036854 → sleepDuration x = x * 1000000) := by
  refine ⟨Receive_loop_sleeps conn.writes ps conn.reads p [] conn.trace,
    Send_loop_sleeps conn.reads (Send.frame payload) ps conn.writes p 0 conn.trace, ?_, ?_,
    sleepDuration_ms⟩
  · obtain ⟨-, added, h1, h2⟩ := Receive_loop_zero_budget conn.writes 0 [] conn.reads []
      conn.trace
    have h1b : (Receive.reached (Receive conn [])).trace = conn.trace ++ added := h1
    rw [h1b, sleeps_append, sleeps_of_reads added h2, List.append_nil]
  · obtain ⟨-, added, h1, h2⟩ := Send_loop_zero_budget conn.reads (Send.frame payload) 0 []
      conn.writes 0 conn.trace
    have h1b : (Send.reached (Send conn payload [])).trace = conn.trace ++ added := h1
    rw [h1b, sleeps_append, sleeps_of_writes _ added h2, List.append_nil]

theorem retry_interval_default_witness :
    (∃ k : Nat,
        sleeps (Receive.reached
            (Receive ⟨[failedRead 1, ⟨[5], none⟩], [failedWrite (0, 2), ⟨1, none⟩], []⟩
              [⟨3, 0⟩])).trace
          = sleeps [] ++ List.replicate k (sleepDuration (if (0 : Int) = 0 then 100 else 0))
        ∧ ∀ r, Receive ⟨[failedRead 1, ⟨[5], none⟩], [failedWrite (0, 2), ⟨1, none⟩], []⟩
              [⟨3, 0⟩] = Outcome.returned r →
            ∃ q : Retry, r.retry = q :: []
              ∧ q.Interval = if k = 0 then (0 : Int) else if (0 : Int) = 0 then 100 else 0)
      ∧ sleepDuration 100 = 100 * 1000000 :=
  ⟨(retry_interval_default ⟨[failedRead 1, ⟨[5], none⟩], [failedWrite (0, 2), ⟨1, none⟩], []⟩
      [9] ⟨3, 0⟩ []).1,
    (retry_interval_default ⟨[failedRead 1, ⟨[5], none⟩], [failedWrite (0, 2), ⟨1, none⟩], []⟩
      [9] ⟨3, 0⟩ []).2.2.2.2 100 (by decide) (by decide)⟩

/-- The default interval at work: with an interval of 0 and one failed attempt, both
calls sleep once for 100 ms and leave 100 in the policy; with no failed attempt no sleep
is made and the interval stays 0. -/
theorem retry_interval_default_run :
    Receive ⟨[failedRead 1, ⟨[5], none⟩], [], []⟩ [⟨3, 0⟩]
        = Outcome.returned ⟨[5], none, [⟨2, 100⟩],
            ⟨[], [], [Event.read, Event.sleep 100000000, Event.read]⟩⟩
      ∧ Send ⟨[], [failedWrite (0, 2), ⟨1, none⟩], []⟩ [9] [⟨3, 0⟩]
        = Outcome.returned ⟨none, [⟨2, 100⟩],
            ⟨[], [], [Event.write [9] 0, Event.sleep 100000000, Event.write [9] 1]⟩⟩
      ∧ Receive ⟨[⟨[5], none⟩], [], []⟩ [⟨3, 0⟩]
        = Outcome.returned ⟨[5], none, [⟨3, 0⟩], ⟨[], [], [Event.read]⟩⟩
      ∧ Send ⟨[], [⟨1, none⟩], []⟩ [9] [⟨3, 0⟩]
        = Outcome.returned ⟨none, [⟨3, 0⟩], ⟨[], [], [Event.write [9] 1]⟩⟩ := by
  decide

/-! ## Send within its budget -/

/-- A script of writes that each fail or accept the whole buffer, longer than the budget,
splits into at most `c` failed writes that are retried and the write that ends the
call: a full write, an end-of-stream, or the failure that finds the budget spent. -/
theorem writes_split (len : Nat) :
    ∀ (writes : List WriteResult) (c : Nat), c + 1 ≤ writes.length →
      (∀ w ∈ writes, w.err ≠ none ∨ w = ⟨len, none⟩) →
      ∃ (fails : List (Int × Nat)) (w : WriteResult) (post : List WriteResult),
        writes = fails.map failedWrite ++ w :: post ∧ fails.length ≤ c
        ∧ (w = ⟨len, none⟩ ∨ w.err = some Error.EOF
            ∨ (fails.length = c ∧ ∃ n code, w = ⟨n, some (Error.Other code)⟩)) := by
  intro writes
  induction writes with
  | nil => intro c h; simp at h
  | cons w ws ih =>
    intro c hlen hscript
    rcases w with ⟨n, err⟩
    cases err with
    | none =>
      refine ⟨[], ⟨n, none⟩, ws, rfl, Nat.zero_le _, Or.inl ?_⟩
      rcases hscript ⟨n, none⟩ (List.mem_cons_self _ _) with h | h
      · exact absurd rfl h
      · exact h
    | some e =>
      cases e with
      | EOF => exact ⟨[], ⟨n, some Error.EOF⟩, ws, rfl, Nat.zero_le _, Or.inr (Or.inl rfl)⟩
      | Other code =>
        cases c with
        | zero =>
          exact ⟨[], ⟨n, some (Error.Other code)⟩, ws, rfl, Nat.le_refl _,
            Or.inr (Or.inr ⟨rfl, n, code, rfl⟩)⟩
        | succ c =>
          obtain ⟨fails, w, post, h1, h2, h3⟩ := ih c (by simpa using hlen)
            (fun x hx => hscript x (List.mem_cons_of_mem _ hx))
          refine ⟨(n, code) :: fails, w, post, ?_, by simpa using h2, ?_⟩
          · simp [h1, failedWrite]
          · rcases h3 with h | h | ⟨h, h'⟩
            · exact Or.inl h
            · exact Or.inr (Or.inl h)
            · exact Or.inr (Or.inr ⟨by simp [h], h'⟩)

/-- The write that ends `Send`: a full first-counted write, an end-of-stream, or a failure
with no retry left or no policy: `Send` returns the error of that write. -/
theorem Send_loop_last (reads : List ReadResult) (data : List Byte) (w : WriteResult)
    (post : List WriteResult) (retry : List Retry) (trace : List Event)
    (h : w = ⟨data.length, none⟩ ∨ w.err = some Error.EOF
        ∨ ((retry = [] ∨ ∃ i ps, retry = ⟨0, i⟩ :: ps)
            ∧ ∃ n code, w = ⟨n, some (Error.Other code)⟩)) :
    Send.loop reads data (w :: post) retry 0 trace
      = Outcome.returned ⟨w.err, retry, ⟨reads, post, trace ++ [Event.write data w.n]⟩⟩ := by
  rcases h with h | h | ⟨h, n, code, hw⟩
  · subst h
    exact Send_loop_full reads data post retry trace
  · rcases w with ⟨n, err⟩
    simp only at h
    subst h
    simp [Send.loop]
  · subst hw
    rcases h with h | ⟨i, ps, h⟩ <;> subst h <;> simp [Send.loop]

/-- C17: on a script in which each write fails with an error or accepts the whole
buffer, `Send` with a budget of `c >= 0` retries (no policy: `c = 0`) returns after at
most `c + 1` writes and at most `c` sleeps: the writes before the last all failed and
were each followed by one sleep; it returns the error of the last write it issued, which
is nil exactly when one of the writes issued succeeded; the count left is `c` less the
retries made, and is not below 0. -/
theorem Send_within_budget (conn : Conn) (payload : List Byte) (c : Nat) (i : Int)
    (ps retry : List Retry)
    (hret : (retry = [] ∧ c = 0) ∨ retry = ⟨c, i⟩ :: ps) (h64 : (c : Int) < 2 ^ 63)
    (hlen : c + 1 ≤ conn.writes.length)
    (hscript : ∀ w ∈ conn.writes,
      w.err ≠ none ∨ w = ⟨((Send.frame payload).length : Int), none⟩) :
    ∃ (fails : List (Int × Nat)) (w : WriteResult) (post : List WriteResult) (s : SendResult),
      conn.writes = fails.map failedWrite ++ w :: post
      ∧ fails.length ≤ c
      ∧ Send conn payload retry = Outcome.returned s
      ∧ s.err = w.err
      ∧ (s.err = none ↔ ∃ x ∈ fails.map failedWrite ++ [w], x.err = none)
      ∧ s.conn = ⟨conn.reads, post,
          conn.trace ++ retried (sleepDuration (if i = 0 then 100 else i))
              (fails.map (fun f => Event.write (Send.frame payload) f.1))
            ++ [Event.write (Send.frame payload) w.n]⟩
      ∧ (retry = [] → s.retry = [])
      ∧ (retry = ⟨c, i⟩ :: ps →
          s.retry = ⟨(c : Int) - fails.length,
            if fails = [] then i else if i = 0 then 100 else i⟩ :: ps
          ∧ 0 ≤ (c : Int) - fails.length) := by
  obtain ⟨fails, w, post, h1, h2, h3⟩ :=
    writes_split (Send.frame payload).length conn.writes c hlen hscript
  have hiff : ∀ e : Option Error, e = w.err →
      (e = none ↔ ∃ x ∈ fails.map failedWrite ++ [w], x.err = none) := by
    intro e he
    subst he
    constructor
    · intro h
      exact ⟨w, by simp, h⟩
    · rintro ⟨x, hx, hxe⟩
      rcases List.mem_append.mp hx with hx | hx
      · obtain ⟨f, -, hf⟩ := List.mem_map.mp hx
        rw [← hf] at hxe
        simp [failedWrite] at hxe
      · rw [List.mem_singleton] at hx
        rw [← hx]; exact hxe
  rcases hret with ⟨hr, hc⟩ | hr
  · subst hr hc
    have hf : fails = [] := List.length_eq_zero.mp (Nat.le_zero.mp h2)
    subst hf
    have hlast := Send_loop_last conn.reads (Send.frame payload) w post [] conn.trace
      (by
        rcases h3 with h | h | ⟨-, h⟩
        · exact Or.inl h
        · exact Or.inr (Or.inl h)
        · exact Or.inr (Or.inr ⟨Or.inl rfl, h⟩))
    refine ⟨[], w, post,
      ⟨w.err, [], ⟨conn.reads, post, conn.trace ++ [Event.write (Send.frame payload) w.n]⟩⟩,
      h1, h2, ?_, rfl, hiff _ rfl, ?_, fun _ => rfl, ?_⟩
    · simp only [Send]
      rw [h1]
      exact hlast
    · simp [retried]
    · intro h; exact absurd h (by simp)
  · subst hr
    have hk : ((fails.length : Nat) : Int) ≤ (c : Int) := by exact_mod_cast h2
    have hlast := Send_loop_last conn.reads (Send.frame payload) w post
      (⟨(c : Int) - fails.length, if fails = [] then i else if i = 0 then 100 else i⟩ :: ps)
      (conn.trace ++ retried (sleepDuration (if i = 0 then 100 else i))
        (fails.map (fun f => Event.write (Send.frame payload) f.1)))
      (by
        rcases h3 with h | h | ⟨hc, h⟩
        · exact Or.inl h
        · exact Or.inr (Or.inl h)
        · refine Or.inr (Or.inr
            ⟨Or.inr ⟨if fails = [] then i else if i = 0 then 100 else i, ps, ?_⟩, h⟩)
          rw [hc, sub_self])
    refine ⟨fails, w, post,
      ⟨w.err,
        ⟨(c : Int) - fails.length, if fails = [] then i else if i = 0 then 100 else i⟩ :: ps,
        ⟨conn.reads, post,
          conn.trace ++ retried (sleepDuration (if i = 0 then 100 else i))
              (fails.map (fun f => Event.write (Send.frame payload) f.1))
            ++ [Event.write (Send.frame payload) w.n]⟩⟩,
      h1, h2, ?_, rfl, hiff _ rfl, rfl, ?_, ?_⟩
    · simp only [Send]
      rw [h1, Send_loop_retries conn.reads _ _ ps 0 fails c i conn.trace hk h64]
      exact hlast
    · intro h; exact absurd h (by simp)
    · intro _
      exact ⟨rfl, by omega⟩

theorem Send_within_budget_witness :
    ∃ (fails : List (Int × Nat)) (w : WriteResult) (post : List WriteResult) (s : SendResult),
      ([failedWrite (0, 1), failedWrite (1, 2), failedWrite (0, 3)] : List WriteResult)
          = fails.map failedWrite ++ w :: post
      ∧ fails.length ≤ 2
      ∧ Send ⟨[], [failedWrite (0, 1), failedWrite (1, 2), failedWrite (0, 3)], []⟩ [7, 8]
          [⟨((2 : Nat) : Int), 10⟩] = Outcome.returned s
      ∧ s.err = w.err
      ∧ (s.err = none ↔ ∃ x ∈ fails.map failedWrite ++ [w], x.err = none)
      ∧ s.conn = ⟨[], post,
          [] ++ retried (sleepDuration (if (10 : Int) = 0 then 100 else 10))
              (fails.map (fun f => Event.write (Send.frame [7, 8]) f.1))
            ++ [Event.write (Send.frame [7, 8]) w.n]⟩
      ∧ (([⟨((2 : Nat) : Int), 10⟩] : List Retry) = [] → s.retry = [])
      ∧ (([⟨((2 : Nat) : Int), 10⟩] : List Retry) = ⟨((2 : Nat) : Int), 10⟩ :: [] →
          s.retry = ⟨((2 : Nat) : Int) - fails.length,
            if fails = [] then 10 else if (10 : Int) = 0 then 100 else 10⟩ :: []
          ∧ 0 ≤ ((2 : Nat) : Int) - fails.length) :=
  Send_within_budget ⟨[], [failedWrite (0, 1), failedWrite (1, 2), failedWrite (0, 3)], []⟩
    [7, 8] 2 10 [] [⟨((2 : Nat) : Int), 10⟩] (Or.inr rfl) (by decide) (by decide)
    (by decide)

/-- A budget spent: two retries, three writes, two sleeps, and the error of the
third write returned with a count of 0. -/
theorem Send_within_budget_run :
    Send ⟨[], [failedWrite (0, 1), failedWrite (1, 2), failedWrite (0, 3)], []⟩ [7, 8]
        [⟨2, 10⟩]
      = Outcome.returned ⟨some (Error.Other 3), [⟨0, 10⟩],
          ⟨[], [], [Event.write [7, 8] 0, Event.sleep 10000000, Event.write [7, 8] 1,
            Event.sleep 10000000, Event.write [7, 8] 0]⟩⟩ := by
  decide

/-! ## The buffer of a retried write -/

/-- C18: every write of one `Send` call is given the same whole buffer, the payload with
the split mark when one is due, whatever the earlier writes reported.  So, with a count of
at least 1, a first write that reports `n >= 1` bytes together with a non-EOF error and a
second write that accepts the whole buffer make `Send` return nil, while the connection
has accepted the first `n` bytes of the buffer followed by the whole buffer, which is not
the buffer. -/
theorem Send_no_reslice (conn : Conn) (payload : List Byte) (retry : List Retry) (c i : Int)
    (ps : List Retry) (n code : Nat) (writes : List WriteResult)
    (hn1 : 1 ≤ n) (hn2 : n ≤ (Send.frame payload).length) (hc : 1 ≤ c) (h64 : c < 2 ^ 63) :
    (∃ added : List Event,
        (Send.reached (Send conn payload retry)).trace = conn.trace ++ added
        ∧ ∀ buf m, Event.write buf m ∈ added → buf = Send.frame payload)
      ∧ ∃ s : SendResult,
        Send ⟨conn.reads,
            ⟨n, some (Error.Other code)⟩ :: ⟨(Send.frame payload).length, none⟩ :: writes, []⟩
          payload (⟨c, i⟩ :: ps) = Outcome.returned s
        ∧ s.err = none
        ∧ accepted s.conn.trace = (Send.frame payload).take n ++ Send.frame payload
        ∧ accepted s.conn.trace ≠ Send.frame payload := by
  constructor
  · obtain ⟨added, h1, h2, -⟩ :=
      Send_loop_trace conn.reads (Send.frame payload) conn.writes retry 0 conn.trace
    exact ⟨added, h1, h2⟩
  · have hrun : Send ⟨conn.reads,
          ⟨n, some (Error.Other code)⟩ :: ⟨(Send.frame payload).length, none⟩ :: writes, []⟩
        payload (⟨c, i⟩ :: ps)
        = Outcome.returned ⟨none, ⟨c - 1, if i = 0 then 100 else i⟩ :: ps,
            ⟨conn.reads, writes,
              [Event.write (Send.frame payload) n,
                Event.sleep (sleepDuration (if i = 0 then 100 else i)),
                Event.write (Send.frame payload) (Send.frame payload).length]⟩⟩ := by
      have h := Send_loop_retries conn.reads (Send.frame payload)
        (⟨(Send.frame payload).length, none⟩ :: writes) ps 0 [((n : Int), code)] c i []
        (by simpa using hc) h64
      simp only [List.map_cons, List.map_nil, List.cons_append, List.nil_append, failedWrite,
        List.length_singleton, Nat.cast_one] at h
      simp only [Send]
      rw [h, Send_loop_full]
      simp [retried]
    have hacc : accepted [Event.write (Send.frame payload) n,
          Event.sleep (sleepDuration (if i = 0 then 100 else i)),
          Event.write (Send.frame payload) (Send.frame payload).length]
        = (Send.frame payload).take n ++ Send.frame payload := by
      simp [accepted, Event.accepted]
    refine ⟨_, hrun, rfl, hacc, ?_⟩
    rw [hacc]
    intro h
    have hl := congrArg List.length h
    simp only [List.length_append, List.length_take] at hl
    omega

theorem Send_no_reslice_witness :
    (∃ added : List Event,
        (Send.reached (Send ⟨[], [], []⟩ [1, 2, 3] [])).trace = [] ++ added
        ∧ ∀ buf m, Event.write buf m ∈ added → buf = Send.frame [1, 2, 3])
      ∧ ∃ s : SendResult,
        Send ⟨[],
            ⟨((2 : Nat) : Int), some (Error.Other 9)⟩
              :: ⟨((Send.frame [1, 2, 3]).length : Int), none⟩ :: [], []⟩
          [1, 2, 3] (⟨1, 10⟩ :: []) = Outcome.returned s
        ∧ s.err = none
        ∧ accepted s.conn.trace = (Send.frame [1, 2, 3]).take 2 ++ Send.frame [1, 2, 3]
        ∧ accepted s.conn.trace ≠ Send.frame [1, 2, 3] :=
  Send_no_reslice ⟨[], [], []⟩ [1, 2, 3] [] 1 10 [] 2 9 [] (by decide) (by decide)
    (by decide) (by decide)

/-- A partial write retried: the peer is handed `[1, 2]` and then `[1, 2, 3]`, and `Send`
returns nil. -/
theorem Send_no_reslice_run :
    Send ⟨[], [⟨2, some (Error.Other 9)⟩, ⟨3, none⟩], []⟩ [1, 2, 3] [⟨1, 10⟩]
        = Outcome.returned ⟨none, [⟨0, 10⟩],
            ⟨[], [], [Event.write [1, 2, 3] 2, Event.sleep 10000000,
              Event.write [1, 2, 3] 3]⟩⟩
      ∧ accepted [Event.write [1, 2, 3] 2, Event.sleep 10000000, Event.write [1, 2, 3] 3]
        = [1, 2, 1, 2, 3] := by
  decide

/-! ## The error Receive returns -/

/-- When the loop of `Receive` returns, the reads it consumed end with the read whose
error it returns. -/
theorem Receive_loop_last_error (writes : List WriteResult) :
    ∀ (reads : List ReadResult) (retry : List Retry) (data : List Byte) (trace : List Event)
      (r : ReceiveResult),
      Receive.loop writes reads retry data trace = Outcome.returned r →
      ∃ (pre : List ReadResult) (last : ReadResult),
        reads = pre ++ last :: r.conn.reads ∧ r.err = last.err := by
  intro reads
  induction reads with
  | nil =>
    intro retry data trace r h
    simp [Receive.loop] at h
  | cons rd reads ih =>
    intro retry data trace r h
    have stop : ∀ (d : List Byte) (rt : List Retry) (tr : List Event),
        Outcome.returned (⟨d, rd.err, rt, ⟨reads, writes, tr⟩⟩ : ReceiveResult)
          = Outcome.returned r →
        ∃ (pre : List ReadResult) (last : ReadResult),
          rd :: reads = pre ++ last :: r.conn.reads ∧ r.err = last.err := by
      intro d rt tr hr
      simp only [Outcome.returned.injEq] at hr
      subst hr
      exact ⟨[], rd, rfl, rfl⟩
    have go : ∀ (rt : List Retry) (d : List Byte) (tr : List Event),
        Receive.loop writes reads rt d tr = Outcome.returned r →
        ∃ (pre : List ReadResult) (last : ReadResult),
          rd :: reads = pre ++ last :: r.conn.reads ∧ r.err = last.err := by
      intro rt d tr hr
      obtain ⟨pre, last, h1, h2⟩ := ih rt d tr r hr
      exact ⟨rd :: pre, last, by rw [h1]; rfl, h2⟩
    unfold Receive.loop at h
    simp only [] at h
    split_ifs at h
    · exact stop _ _ _ h
    · cases retry with
      | nil => exact stop _ _ _ h
      | cons p ps =>
        simp only [] at h
        split_ifs at h
        · exact stop _ _ _ h
        · exact go _ _ _ h
    · exact stop _ _ _ h
    · exact stop _ _ _ h
    · exact go _ _ _ h

/-- C19: whenever `Receive` returns, under any policy or none, the reads it made are a
prefix of the connection's script, and the error it returns is the error of the last of
them, nil exactly when that read reported none, whatever ended the loop and whatever
errors the earlier, retried reads reported. -/
theorem Receive_returns_last_error (conn : Conn) (retry : List Retry) (r : ReceiveResult)
    (h : Receive conn retry = Outcome.returned r) :
    ∃ (pre : List ReadResult) (last : ReadResult),
      conn.reads = pre ++ last :: r.conn.reads
      ∧ r.err = last.err ∧ (r.err = none ↔ last.err = none) := by
  obtain ⟨pre, last, h1, h2⟩ :=
    Receive_loop_last_error conn.writes conn.reads retry [] conn.trace r h
  exact ⟨pre, last, h1, h2, by rw [h2]⟩

theorem Receive_returns_last_error_witness :
    ∃ (pre : List ReadResult) (last : ReadResult),
      [failedRead 1, failedRead 2, ⟨[5], none⟩, failedRead 3]
          = pre ++ last :: [failedRead 3]
      ∧ (none : Option Error) = last.err ∧ ((none : Option Error) = none ↔ last.err = none) :=
  Receive_returns_last_error ⟨[failedRead 1, failedRead 2, ⟨[5], none⟩, failedRead 3], [], []⟩
    [⟨2, 10⟩]
    ⟨[5], none, [⟨0, 10⟩], ⟨[failedRead 3], [],
      [Event.read, Event.sleep 10000000, Event.read, Event.sleep 10000000, Event.read]⟩⟩
    (by decide)

/-! ## The exact round-trip condition -/

/-- A first write that accepts the whole buffer: `Send` returns nil and the connection
has accepted the buffer. -/
theorem Send_accepted_in_full (payload : List Byte) (reads : List ReadResult)
    (writes : List WriteResult) (retry : List Retry) :
    Send ⟨reads, ⟨(Send.frame payload).length, none⟩ :: writes, []⟩ payload retry
        = Outcome.returned ⟨none, retry,
            ⟨reads, writes, [Event.write (Send.frame payload) (Send.frame payload).length]⟩⟩
      ∧ accepted [Event.write (Send.frame payload) (Send.frame payload).length]
        = Send.frame payload := by
  constructor
  · simp only [Send]
    exact Send_loop_full reads (Send.frame payload) writes retry []
  · simp [accepted, Event.accepted]

/-- C20: over a loopback pair whose sending end accepts `Send`'s write in full, `Receive`
returns the payload with its last 5 bytes removed when the payload's length is 5 modulo
1024 and its last 5 bytes are the split mark, and the payload itself otherwise; so it
returns the original payload if and only if the payload is not of that kind. -/
theorem roundtrip_exact (payload : List Byte) (reads : List ReadResult)
    (writes : List WriteResult) (retry retry2 : List Retry) :
    ∃ s : SendResult,
      Send ⟨reads, ⟨(Send.frame payload).length, none⟩ :: writes, []⟩ payload retry
          = Outcome.returned s
      ∧ s.err = none
      ∧ Receive (loopbackPeer s.conn) retry2
          = Outcome.returned
              ⟨if payload.length % 1024 = 5 ∧ pkgSplitMark <:+ payload then
                  payload.take (payload.length - 5) else payload,
                none, retry2,
                ⟨[], [], List.replicate (payload.length / 1024 + 1) Event.read⟩⟩
      ∧ ((if payload.length % 1024 = 5 ∧ pkgSplitMark <:+ payload then
            payload.take (payload.length - 5) else payload) = payload
          ↔ ¬ (payload.length % 1024 = 5 ∧ pkgSplitMark <:+ payload)) := by
  obtain ⟨hsend, hacc⟩ := Send_accepted_in_full payload reads writes retry
  refine ⟨_, hsend, rfl, ?_, ?_⟩
  · simp only [Receive, loopbackPeer, hacc]
    by_cases hcond : payload.length % 1024 = 5 ∧ pkgSplitMark <:+ payload
    · obtain ⟨h5, body, hbody⟩ := hcond
      subst hbody
      have hl : (body ++ pkgSplitMark).length = body.length + 5 := by simp [pkgSplitMark]
      have hb : body.length % 1024 = 0 := by omega
      have hframe : Send.frame (body ++ pkgSplitMark) = body ++ pkgSplitMark := by
        have : ¬ (body ++ pkgSplitMark).length % 1024 = 0 := by omega
        simp only [Send.frame, gDEFAULT_READ_BUFFER_SIZE, this, if_false]
      have htake : (body ++ pkgSplitMark).take ((body ++ pkgSplitMark).length - 5) = body := by
        rw [hl, Nat.add_sub_cancel]
        exact List.take_left' rfl
      have hdiv : (body ++ pkgSplitMark).length / 1024 = body.length / 1024 := by omega
      rw [hframe, if_pos ⟨h5, body, rfl⟩, htake, hdiv]
      simpa using Receive_loop_loopback_mark [] retry2 (body ++ pkgSplitMark).length body
        [] [] (by omega) hb
    · rw [if_neg hcond]
      by_cases hlen : payload.length % 1024 = 0
      · have hframe : Send.frame payload = payload ++ pkgSplitMark := by
          simp [Send.frame, gDEFAULT_READ_BUFFER_SIZE, hlen]
        rw [hframe]
        simpa using Receive_loop_loopback_mark [] retry2 (payload ++ pkgSplitMark).length
          payload [] [] (by simp [pkgSplitMark]) hlen
      · have hframe : Send.frame payload = payload := by
          simp [Send.frame, gDEFAULT_READ_BUFFER_SIZE, hlen]
        rw [hframe]
        simpa using Receive_loop_loopback [] retry2 payload.length payload [] []
          (Nat.le_refl _) hlen hcond
  · constructor
    · intro h hcond
      rw [if_pos hcond] at h
      have hl := congrArg List.length h
      simp only [List.length_take] at hl
      omega
    · intro hcond
      rw [if_neg hcond]

/-- The smallest payload that does not come back: the split mark sent as a payload comes back
as the empty payload. -/
theorem roundtrip_exact_run :
    Send ⟨[], [⟨5, none⟩], []⟩ [0, 69, 79, 80, 0] []
        = Outcome.returned ⟨none, [], ⟨[], [], [Event.write [0, 69, 79, 80, 0] 5]⟩⟩
      ∧ Receive (loopbackPeer ⟨[], [], [Event.write [0, 69, 79, 80, 0] 5]⟩) []
        = Outcome.returned ⟨[], none, [], ⟨[], [], [Event.read]⟩⟩ := by
  decide

end gtcp
